import Mathlib

/-!
Verification of the nolpy stream library (src/nolpy/sock.py, src/nolpy/proc.py)
against its specification.

The development has three layers:

1. a byte-level model of `FlushProxy.read_http_res`.  That method wraps the
   stream in a recording file object and lets `http.client.HTTPResponse`
   (Python standard library) drive the reads, so the functions below are a
   shallow embedding of `HTTPResponse.begin` and `HTTPResponse.read` as they
   act on a stream of pending bytes.  A stream is a `List Nat` of byte
   values; reading consumes a prefix.  The recorded result returned by
   `read_http_res` is exactly the consumed prefix, so every function below
   returns the pair (consumed bytes, remaining stream) or an error.

2. a state-based model of the proxy objects (`ProcessProxy`, `FlushProxy`)
   with their drain / print / write / read / close operations.  Underlying
   file objects are records carrying a closed flag, fcntl descriptor flags,
   a socket timeout, a script of future read results and a write buffer.
   Python exceptions are modelled by an explicit error type threaded through
   the operations; a `try/except` of the source becomes a `match` on that
   error.

3. serializers and well-formedness predicates for HTTP messages, used to
   state the universally quantified claims about the framer.
-/

set_option autoImplicit false

deriving instance DecidableEq for Except

namespace Nolpy

/-- Bytes of a Lean string literal under the latin-1 identification of
byte values with code points, matching the `latin-1` / `iso-8859-1`
codecs used throughout the source. -/
def latin1 (s : String) : List Nat := s.data.map Char.toNat

/-- The two-byte CRLF line terminator. -/
def crlf : List Nat := [13, 10]

/-- `file.readline(limit)` of Python on a stream of pending bytes:
returns at most `limit` bytes, up to and including the first newline
byte 10.  Result is (line, rest of the stream). -/
def readlineFp : Nat → List Nat → List Nat × List Nat
  | _, [] => ([], [])
  | 0, s => ([], s)
  | limit + 1, b :: rest =>
    if b = 10 then ([10], rest)
    else
      let p := readlineFp limit rest
      (b :: p.1, p.2)

/-- `file.read(amt)` of Python on a stream of pending bytes: a negative
amount reads everything, otherwise up to `amt` bytes are returned. -/
def readFp (amt : Int) (s : List Nat) : List Nat × List Nat :=
  if amt < 0 then (s, [])
  else (s.take amt.toNat, s.drop amt.toNat)

/-- Errors raised by `http.client.HTTPResponse` while framing a response.
`incompleteRead` also stands for the `IncompleteRead` that
`_get_chunk_left` raises when the chunk-size line fails to parse. -/
inductive HTTPError where
  | lineTooLong
  | remoteDisconnected
  | badStatusLine
  | unknownProtocol
  | tooManyHeaders
  | incompleteRead
deriving DecidableEq

/-- `HTTPResponse._safe_read(amt)`: read `amt` bytes and raise
`IncompleteRead` if fewer arrive.  (A negative `amt` reads everything
and never raises, as in Python.) -/
def safeRead (amt : Int) (s : List Nat) : Except HTTPError (List Nat × List Nat) :=
  let p := readFp amt s
  if (p.1.length : Int) < amt then .error .incompleteRead
  else .ok p

/-- Python `str` whitespace restricted to latin-1 code points, the set
used by `str.split()` and by `int(str)`. -/
def isStrWs (b : Nat) : Bool :=
  b = 9 || b = 10 || b = 11 || b = 12 || b = 13 ||
  b = 28 || b = 29 || b = 30 || b = 31 || b = 32 || b = 133 || b = 160

/-- Python `bytes` (ASCII) whitespace, the set used by `int(bytes, 16)`. -/
def isAsciiWs (b : Nat) : Bool :=
  b = 9 || b = 10 || b = 11 || b = 12 || b = 13 || b = 32

/-- Strip the given whitespace class from both ends of a byte string. -/
def stripWs (ws : Nat → Bool) (s : List Nat) : List Nat :=
  ((s.dropWhile ws).reverse.dropWhile ws).reverse

/-- Value of a decimal digit byte, if it is one. -/
def decDigit (b : Nat) : Option Nat :=
  if 48 ≤ b ∧ b ≤ 57 then some (b - 48) else none

/-- Value of a hexadecimal digit byte, if it is one. -/
def hexDigit (b : Nat) : Option Nat :=
  if 48 ≤ b ∧ b ≤ 57 then some (b - 48)
  else if 97 ≤ b ∧ b ≤ 102 then some (b - 87)
  else if 65 ≤ b ∧ b ≤ 70 then some (b - 55)
  else none

/-- Continuation of `parseUD`: digits already begun, single underscores
allowed between digits (Python numeric literal grammar used by `int`). -/
def parseUDCont (dv : Nat → Option Nat) (base : Nat) : Nat → List Nat → Option Nat
  | acc, [] => some acc
  | acc, b :: rest =>
    if b = 95 then
      match rest with
      | [] => none
      | b' :: rest' =>
        match dv b' with
        | some d => parseUDCont dv base (acc * base + d) rest'
        | none => none
    else
      match dv b with
      | some d => parseUDCont dv base (acc * base + d) rest
      | none => none

/-- Digit string with optional single underscores between digits, as
accepted by Python `int` after sign and prefix handling. -/
def parseUD (dv : Nat → Option Nat) (base : Nat) : List Nat → Option Nat
  | [] => none
  | b :: rest =>
    match dv b with
    | some d => parseUDCont dv base d rest
    | none => none

/-- Python `int(s)` (base 10) on a latin-1 string: strip unicode
whitespace, optional sign, decimal digits with underscores. -/
def pyIntDec (s : List Nat) : Option Int :=
  match stripWs isStrWs s with
  | [] => none
  | b :: r =>
    if b = 43 then (parseUD decDigit 10 r).map (fun n => (n : Int))
    else if b = 45 then (parseUD decDigit 10 r).map (fun n => -(n : Int))
    else (parseUD decDigit 10 (b :: r)).map (fun n => (n : Int))

/-- Body of a base-16 Python int literal: optional `0x`/`0X` prefix
(after which one leading underscore is allowed), then hex digits. -/
def parseHexBody : List Nat → Option Nat
  | b :: x :: rest =>
    if b = 48 ∧ (x = 120 ∨ x = 88) then
      match rest with
      | u :: rest' =>
        if u = 95 then parseUD hexDigit 16 rest' else parseUD hexDigit 16 (u :: rest')
      | [] => none
    else parseUD hexDigit 16 (b :: x :: rest)
  | r => parseUD hexDigit 16 r

/-- Python `int(bs, 16)` on a byte string: strip ASCII whitespace,
optional sign, then `parseHexBody`. -/
def pyIntHex (s : List Nat) : Option Int :=
  match stripWs isAsciiWs s with
  | [] => none
  | b :: r =>
    if b = 43 then (parseHexBody r).map (fun n => (n : Int))
    else if b = 45 then (parseHexBody r).map (fun n => -(n : Int))
    else (parseHexBody (b :: r)).map (fun n => (n : Int))

/-- Python `s.split(None, maxsplit)` on a latin-1 string: split on runs
of whitespace, at most `maxsplit` splits, the remainder kept verbatim
after its leading whitespace. -/
def pySplitWs : Nat → List Nat → List (List Nat)
  | 0, s =>
    let s1 := s.dropWhile isStrWs
    if s1 = [] then [] else [s1]
  | m + 1, s =>
    let s1 := s.dropWhile isStrWs
    if s1 = [] then []
    else
      let t := s1.takeWhile (fun b => !isStrWs b)
      let r := s1.dropWhile (fun b => !isStrWs b)
      t :: pySplitWs m r

/-- Check the version and status fields of a parsed status line, as in
`HTTPResponse._read_status`: the version must start with `HTTP/`, the
status must be a three-digit-range integer. -/
def checkStatusParts (version statusStr : List Nat) : Except HTTPError (List Nat × Int) :=
  if (latin1 ("HTTP/")).isPrefixOf version then
    match pyIntDec statusStr with
    | some st => if st < 100 ∨ st > 999 then .error .badStatusLine else .ok (version, st)
    | none => .error .badStatusLine
  else .error .badStatusLine

/-- `HTTPResponse._read_status`: read one line (limit 65537, error above
65536 bytes), error on EOF, split it and validate version and status.
Returns (consumed line, version, status, rest). -/
def readStatus (s : List Nat) : Except HTTPError (List Nat × List Nat × Int × List Nat) :=
  let p := readlineFp 65537 s
  if p.1.length > 65536 then .error .lineTooLong
  else if p.1 = [] then .error .remoteDisconnected
  else
    match pySplitWs 2 p.1 with
    | [v, st, _] =>
      match checkStatusParts v st with
      | .ok q => .ok (p.1, q.1, q.2, p.2)
      | .error e => .error e
    | _ =>
      match pySplitWs 1 p.1 with
      | [v, st] =>
        match checkStatusParts v st with
        | .ok q => .ok (p.1, q.1, q.2, p.2)
        | .error e => .error e
      | _ => .error .badStatusLine

/-- `http.client._read_headers`: read raw header lines until a blank
line or EOF, erroring after more than 100 lines have been collected.
The terminating blank (or empty) line is included in the result.  The
fuel argument is the number of further lines that may be collected
without exceeding `_MAXHEADERS`; callers pass 100. -/
def readHeaderLinesAux : Nat → List Nat → Except HTTPError (List (List Nat) × List Nat)
  | fuel, s =>
    let p := readlineFp 65537 s
    if p.1.length > 65536 then .error .lineTooLong
    else
      match fuel with
      | 0 => .error .tooManyHeaders
      | fuel' + 1 =>
        if p.1 = [13, 10] ∨ p.1 = [10] ∨ p.1 = [] then .ok ([p.1], p.2)
        else
          match readHeaderLinesAux fuel' p.2 with
          | .ok q => .ok (p.1 :: q.1, q.2)
          | .error e => .error e

/-- Strip trailing carriage returns and newlines, as the email policy
does when it finalises a header value. -/
def rstripCRLF (v : List Nat) : List Nat :=
  (v.reverse.dropWhile (fun b => b = 13 || b = 10)).reverse

/-- Strip leading spaces and tabs, as the email policy does on the text
after the colon of a header line. -/
def lstripSpTab (v : List Nat) : List Nat :=
  v.dropWhile (fun b => b = 32 || b = 9)

/-- ASCII lower-casing of a byte.  For latin-1 input compared against the
ASCII names `transfer-encoding`, `content-length` and the value
`chunked`, Python's full `str.lower` agrees with this. -/
def lowerNat (b : Nat) : Nat := if 65 ≤ b ∧ b ≤ 90 then b + 32 else b

/-- Lower-case a byte string. -/
def lowerNats (s : List Nat) : List Nat := s.map lowerNat

/-- Finalise the header currently being accumulated, if any. -/
def flushHeader : Option (List Nat × List Nat) → List (List Nat × List Nat)
  | none => []
  | some p => [(p.1, rstripCRLF p.2)]

/-- A header continuation line starts with a space or a tab. -/
def isContinuation (line : List Nat) : Bool :=
  match line with
  | [] => false
  | b :: _ => b = 32 || b = 9

/-- Split a header line at its first colon; the colon may not be the
first byte.  Returns (name, text after the colon). -/
def splitColon? (line : List Nat) : Option (List Nat × List Nat) :=
  match line.findIdx? (fun b => b = 58) with
  | some i => if i = 0 then none else some (line.take i, line.drop (i + 1))
  | none => none

/-- The header-field parse performed by `email.parser` on the raw lines
collected by `_read_headers` (compat32 `header_source_parse`): a line
starting with space or tab continues the current header, any other line
finalises the current header and, when it has a colon in a position
other than zero, begins a new one whose value is the text after the
colon with leading spaces and tabs removed; on finalisation trailing CR
and LF bytes are stripped from the accumulated value.  Envelope
(`From `) lines and the body push-back of lines that do not look like
headers are not modelled; the well-formedness predicates below confine
all claims to inputs on which this parse agrees with the library. -/
def parseHeaderLinesAux : Option (List Nat × List Nat) → List (List Nat) → List (List Nat × List Nat)
  | cur, [] => flushHeader cur
  | cur, line :: rest =>
    if isContinuation line then
      match cur with
      | none => parseHeaderLinesAux none rest
      | some p => parseHeaderLinesAux (some (p.1, p.2 ++ line)) rest
    else
      match splitColon? line with
      | some nv => flushHeader cur ++ parseHeaderLinesAux (some (nv.1, lstripSpTab nv.2)) rest
      | none => flushHeader cur ++ parseHeaderLinesAux none rest

/-- `Message.get(name)`: first header whose name matches
case-insensitively, returning its value. -/
def headersGet (target : List Nat) : List (List Nat × List Nat) → Option (List Nat)
  | [] => none
  | p :: rest =>
    if lowerNats p.1 = lowerNats target then some p.2 else headersGet target rest

/-- The `transfer-encoding` test of `HTTPResponse.begin`: the header is
present, non-empty, and lower-cases to `chunked`. -/
def teChunked (pairs : List (List Nat × List Nat)) : Bool :=
  match headersGet (latin1 ("transfer-encoding")) pairs with
  | some v => !v.isEmpty && (lowerNats v == latin1 ("chunked"))
  | none => false

/-- The `content-length` computation of `HTTPResponse.begin`: the header
must be present and non-empty, chunked encoding must be off, the value
must parse as a non-negative integer; otherwise the length is unknown. -/
def clLength (chunked : Bool) (pairs : List (List Nat × List Nat)) : Option Int :=
  match headersGet (latin1 ("content-length")) pairs with
  | some v =>
    if !v.isEmpty && !chunked then
      match pyIntDec v with
      | some n => if n < 0 then none else some n
      | none => none
    else none
  | none => none

/-- Status codes whose body length is forced to zero by
`HTTPResponse.begin`: 204, 304 and the 1xx range.  (The `HEAD` case
cannot arise: `read_http_res` constructs the response with no method.) -/
def forcedZero (status : Int) : Bool :=
  status = 204 || status = 304 || (100 ≤ status && status < 200)

/-- Framing facts extracted from a response header block. -/
structure RespInfo where
  status : Int
  chunked : Bool
  rlength : Option Int
deriving DecidableEq

/-- The body-framing computation of `HTTPResponse.begin` after the
header block has been parsed.  (`will_close` is also computed there but
has no effect on the bytes read, so it is not modelled.) -/
def computeInfo (status : Int) (pairs : List (List Nat × List Nat)) : RespInfo :=
  let ch := teChunked pairs
  let l0 := clLength ch pairs
  { status := status, chunked := ch,
    rlength := if forcedZero status then some 0 else l0 }

/-- The `while status == 100` loop of `HTTPResponse.begin`: read a
status line; a 100 status makes it skip a header block and read the
next status line.  Fuel bounds the iterations; every iteration consumes
at least one byte, so `s.length + 1` is always enough.  Returns
(consumed bytes, version, status, rest). -/
def beginLoop : Nat → List Nat → Except HTTPError (List Nat × List Nat × Int × List Nat)
  | 0, _ => .error .remoteDisconnected
  | fuel + 1, s =>
    match readStatus s with
    | .error e => .error e
    | .ok q =>
      if q.2.2.1 = 100 then
        match readHeaderLinesAux 100 q.2.2.2 with
        | .error e => .error e
        | .ok hl =>
          match beginLoop fuel hl.2 with
          | .error e => .error e
          | .ok r => .ok (q.1 ++ hl.1.flatten ++ r.1, r.2.1, r.2.2.1, r.2.2.2)
      else .ok (q.1, q.2.1, q.2.2.1, q.2.2.2)

/-- `HTTPResponse.begin`: status-line loop, protocol version check, then
the header block is read and parsed and the framing facts computed.
Returns (consumed bytes, framing info, rest). -/
def begin (s : List Nat) : Except HTTPError (List Nat × RespInfo × List Nat) :=
  match beginLoop (s.length + 1) s with
  | .error e => .error e
  | .ok q =>
    if (q.2.1 = latin1 ("HTTP/1.0") ∨ q.2.1 = latin1 ("HTTP/0.9")) ∨
        (latin1 ("HTTP/1.")).isPrefixOf q.2.1 then
      match readHeaderLinesAux 100 q.2.2.2 with
      | .error e => .error e
      | .ok hl =>
        let pairs := parseHeaderLinesAux none hl.1.dropLast
        .ok (q.1 ++ hl.1.flatten, computeInfo q.2.2.1 pairs, hl.2)
    else .error .unknownProtocol

/-- `HTTPResponse._read_next_chunk_size`: read a line, strip a chunk
extension after `;`, parse the rest as a base-16 Python int.  A parse
failure surfaces as the `IncompleteRead` that `_get_chunk_left` raises.
Returns (size, consumed line, rest). -/
def readNextChunkSize (s : List Nat) : Except HTTPError (Int × List Nat × List Nat) :=
  let p := readlineFp 65537 s
  if p.1.length > 65536 then .error .lineTooLong
  else
    match pyIntHex (p.1.takeWhile (fun b => b ≠ 59)) with
    | some n => .ok (n, p.1, p.2)
    | none => .error .incompleteRead

/-- `HTTPResponse._read_and_discard_trailer`: read lines until a blank
line or EOF.  Returns (consumed bytes, rest).  Every non-final
iteration consumes at least one byte, so fuel `s.length + 1` always
suffices. -/
def readTrailer : Nat → List Nat → Except HTTPError (List Nat × List Nat)
  | fuel, s =>
    let p := readlineFp 65537 s
    if p.1.length > 65536 then .error .lineTooLong
    else if p.1 = [] then .ok ([], p.2)
    else if p.1 = [13, 10] ∨ p.1 = [10] then .ok (p.1, p.2)
    else
      match fuel with
      | 0 => .error .incompleteRead
      | fuel' + 1 =>
        match readTrailer fuel' p.2 with
        | .ok q => .ok (p.1 ++ q.1, q.2)
        | .error e => .error e

/-- The loop of `HTTPResponse._readall_chunked` together with
`_get_chunk_left`: starting from the recorded `chunk_left` state, read
the CRLF closing the previous chunk when one was finished, read and
parse the next chunk-size line, stop after the zero chunk by discarding
the trailer, otherwise read the chunk body and continue.  Every
iteration consumes at least one byte, so fuel `s.length + 1` always
suffices.  Returns (consumed bytes, rest). -/
def readAllChunkedAux : Nat → Option Int → List Nat → Except HTTPError (List Nat × List Nat)
  | 0, _, _ => .error .incompleteRead
  | fuel + 1, chunkLeft, s =>
    let getRes : Except HTTPError (List Nat × Option Int × List Nat) :=
      match chunkLeft with
      | some n =>
        if n = 0 then
          match safeRead 2 s with
          | .error e => .error e
          | .ok p =>
            match readNextChunkSize p.2 with
            | .error e => .error e
            | .ok q =>
              if q.1 = 0 then
                match readTrailer (q.2.2.length + 1) q.2.2 with
                | .error e => .error e
                | .ok t => .ok (p.1 ++ q.2.1 ++ t.1, none, t.2)
              else .ok (p.1 ++ q.2.1, some q.1, q.2.2)
        else .ok ([], some n, s)
      | none =>
        match readNextChunkSize s with
        | .error e => .error e
        | .ok q =>
          if q.1 = 0 then
            match readTrailer (q.2.2.length + 1) q.2.2 with
            | .error e => .error e
            | .ok t => .ok (q.2.1 ++ t.1, none, t.2)
          else .ok (q.2.1, some q.1, q.2.2)
    match getRes with
    | .error e => .error e
    | .ok g =>
      match g.2.1 with
      | none => .ok (g.1, g.2.2)
      | some n =>
        match safeRead n g.2.2 with
        | .error e => .error e
        | .ok d =>
          match readAllChunkedAux fuel (some 0) d.2 with
          | .error e => .error e
          | .ok r => .ok (g.1 ++ d.1 ++ r.1, r.2)

/-- `HTTPResponse.read()` with no amount: chunked transfer reads all
chunks; an unknown length reads to EOF; a known length is read exactly
with `_safe_read`.  Returns (consumed bytes, rest). -/
def respRead (info : RespInfo) (s : List Nat) : Except HTTPError (List Nat × List Nat) :=
  if info.chunked then readAllChunkedAux (s.length + 1) none s
  else
    match info.rlength with
    | none => .ok (s, [])
    | some n =>
      match safeRead n s with
      | .error e => .error e
      | .ok p => .ok (p.1, p.2)

/-- `FlushProxy.read_http_res` on the pending bytes of the stream:
`HTTPResponse.begin` followed by `HTTPResponse.read()`, with every byte
read recorded.  Returns (recorded bytes, bytes left unread) or the
exception that propagates to the caller. -/
def read_http_res (s : List Nat) : Except HTTPError (List Nat × List Nat) :=
  match begin s with
  | .error e => .error e
  | .ok q =>
    match respRead q.2.1 q.2.2 with
    | .error e => .error e
    | .ok r => .ok (q.1 ++ r.1, r.2)

/-! ### Proxy objects, drain, multiplexer

The state-based models of `ProcessProxy` (src/nolpy/proc.py) and
`FlushProxy` (src/nolpy/sock.py).  Python exceptions are values of
`PyErr`; an operation that can raise returns its result together with an
`Option PyErr` (the pending exception), and a `try/except` of the
source becomes a `match` guarded by the class test of the handler. -/

/-- Python exception classes relevant to the proxies.  `BlockingIOError`
is a subclass of `OSError` (= `IOError` = `socket.error`), and
`UnicodeEncodeError` is a subclass of `ValueError`. -/
inductive PyErr where
  | valueError
  | osError
  | blockingIOError
  | unicodeEncodeError
deriving DecidableEq

/-- Membership in the `OSError` class (also named `IOError` and
`socket.error`). -/
def PyErr.isOSError : PyErr → Bool
  | .osError => true
  | .blockingIOError => true
  | _ => false

/-- Membership in the `ValueError` class. -/
def PyErr.isValueError : PyErr → Bool
  | .valueError => true
  | .unicodeEncodeError => true
  | _ => false

/-- One future result of a `read(4096)` call on a stream: either a byte
chunk (empty meaning EOF) or a raised exception. -/
inductive ReadRes where
  | bytes (bs : List Nat)
  | err (e : PyErr)
deriving DecidableEq

/-- An underlying Python file object (process pipe end, socket file or
sink), with the attributes the proxies touch: a closed flag, fcntl
descriptor flags (`O_NONBLOCK` is bit 2048), an optional socket timeout
behind a `settimeout` attribute, a script of future read results, and a
write buffer split into pending and flushed bytes. -/
structure PyFile where
  closed : Bool
  flags : Nat
  hasSettimeout : Bool
  timeout : Option Nat
  reads : List ReadRes
  pending : List Nat
  flushed : List Nat
deriving DecidableEq

/-- The `O_NONBLOCK` flag bit. -/
def O_NONBLOCK : Nat := 2048

/-- `stream.read(4096)`: raises `ValueError` on a closed file, otherwise
consumes the next scripted result (an exhausted script reads as EOF). -/
def PyFile.read4096 (f : PyFile) : PyFile × Except PyErr (List Nat) :=
  if f.closed then (f, .error .valueError)
  else
    match f.reads with
    | [] => (f, .ok [])
    | .bytes bs :: r => ({ f with reads := r }, .ok bs)
    | .err e :: r => ({ f with reads := r }, .error e)

/-- `stream.readline(limit)`: raises `ValueError` on a closed file; the
successive line results are modelled by the same script as `read`. -/
def PyFile.readlineOp (f : PyFile) : PyFile × Except PyErr (List Nat) :=
  f.read4096

/-- `stream.write(data)`: raises `ValueError` on a closed file, otherwise
buffers the bytes and returns their count. -/
def PyFile.writeOp (f : PyFile) (bs : List Nat) : PyFile × Except PyErr Nat :=
  if f.closed then (f, .error .valueError)
  else ({ f with pending := f.pending ++ bs }, .ok bs.length)

/-- `stream.flush()`: raises `ValueError` on a closed file, otherwise
moves the pending bytes to the flushed ones. -/
def PyFile.flushOp (f : PyFile) : PyFile × Except PyErr Unit :=
  if f.closed then (f, .error .valueError)
  else ({ f with pending := [], flushed := f.flushed ++ f.pending }, .ok ())

/-- `stream.close()`. -/
def PyFile.closeOp (f : PyFile) : PyFile := { f with closed := true }

/-- The argument accepted by the proxies' `write`: a `str` (list of
unicode code points), `bytes`, or `bytearray`. -/
inductive PyData where
  | str (cs : List Nat)
  | bytes (bs : List Nat)
  | bytearray (bs : List Nat)
deriving DecidableEq

/-- `s.encode("latin-1")`: identity on code points below 256, raising
`UnicodeEncodeError` otherwise. -/
def encodeLatin1 (cs : List Nat) : Option (List Nat) :=
  if cs.all (fun c => c < 256) then some cs else none

/-- The conversion both `write` methods perform on their argument:
`str` is encoded with latin-1, `bytearray` is copied to `bytes`,
`bytes` passes through. -/
def pyToNats : PyData → Option (List Nat)
  | .str cs => encodeLatin1 cs
  | .bytes bs => some bs
  | .bytearray bs => some bs

/-- The `while True: if not stream.read(4096): break` loop shared by the
two drain implementations, on a file already set non-blocking: consume
scripted results until EOF (break), an exception (handed to the
caller's handler), or the script runs out.  Fuel is the script length,
which bounds the iterations. -/
def drainReadLoopAux : Nat → PyFile → PyFile × Option PyErr
  | fuel, f =>
    match f.read4096 with
    | (f1, .error e) => (f1, some e)
    | (f1, .ok []) => (f1, none)
    | (f1, .ok (_ :: _)) =>
      match fuel with
      | 0 => (f1, none)
      | fuel' + 1 => drainReadLoopAux fuel' f1

/-- The drain read loop with its fuel supplied. -/
def drainReadLoop (f : PyFile) : PyFile × Option PyErr :=
  drainReadLoopAux f.reads.length f

/-- `ProcessProxy.drain._drain_stream`: a missing stream is a no-op; on
a closed stream `fileno()` raises `ValueError`, caught by the outer
handler before the flags are touched; otherwise the fcntl flags are
saved, `O_NONBLOCK` set, the read loop run with its
`except (IOError, ValueError)` handler, and the flags restored by the
`finally`.  Returns the file together with any escaping exception. -/
def drainStream : Option PyFile → Option PyFile × Option PyErr
  | none => (none, none)
  | some f =>
    if f.closed then (some f, none)
    else
      let fl := f.flags
      let f1 := { f with flags := fl ||| O_NONBLOCK }
      let p := drainReadLoop f1
      let caughtInner :=
        match p.2 with
        | some e => if e.isOSError || e.isValueError then none else some e
        | none => none
      let f2 := { p.1 with flags := fl }
      match caughtInner with
      | some e => if e.isOSError || e.isValueError then (some f2, none) else (some f2, some e)
      | none => (some f2, none)

/-- State of a `ProcessProxy`: the three pipe ends, whether the child
process is still running, and the wrapper's flags. -/
structure ProcProxy where
  stdin : Option PyFile
  stdout : Option PyFile
  stderr : Option PyFile
  alive : Bool
  autoDrain : Bool
  closed : Bool
deriving DecidableEq

/-- `ProcessProxy.read`: empty bytes when stdout is missing or the proxy
is closed, else a stdout read. -/
def ProcProxy.read (p : ProcProxy) : ProcProxy × Except PyErr (List Nat) :=
  if p.stdout.isNone || p.closed then (p, .ok [])
  else
    match p.stdout with
    | some f =>
      let q := f.read4096
      ({ p with stdout := some q.1 }, q.2)
    | none => (p, .ok [])

/-- `ProcessProxy.readline`: empty bytes when stdout is missing or the
proxy is closed, else a stdout readline. -/
def ProcProxy.readline (p : ProcProxy) : ProcProxy × Except PyErr (List Nat) :=
  if p.stdout.isNone || p.closed then (p, .ok [])
  else
    match p.stdout with
    | some f =>
      let q := f.readlineOp
      ({ p with stdout := some q.1 }, q.2)
    | none => (p, .ok [])

/-- `ProcessProxy.write`: returns 0 when stdin is missing or the proxy
is closed; otherwise converts the data, writes it to stdin, flushes,
and returns the count reported by the underlying write. -/
def ProcProxy.write (p : ProcProxy) (d : PyData) : ProcProxy × Except PyErr Nat :=
  if p.stdin.isNone || p.closed then (p, .ok 0)
  else
    match p.stdin with
    | some f =>
      match pyToNats d with
      | none => (p, .error .unicodeEncodeError)
      | some bs =>
        let q := f.writeOp bs
        match q.2 with
        | .error e => ({ p with stdin := some q.1 }, .error e)
        | .ok n =>
          let r := q.1.flushOp
          match r.2 with
          | .error e => ({ p with stdin := some r.1 }, .error e)
          | .ok _ => ({ p with stdin := some r.1 }, .ok n)
    | none => (p, .ok 0)

/-- `ProcessProxy.drain`: a closed proxy returns at once; otherwise
stdout then stderr are drained.  An exception escaping the first drain
would skip the second, as in Python. -/
def ProcProxy.drain (p : ProcProxy) : ProcProxy × Option PyErr :=
  if p.closed then (p, none)
  else
    let q := drainStream p.stdout
    match q.2 with
    | some e => ({ p with stdout := q.1 }, some e)
    | none =>
      let r := drainStream p.stderr
      ({ p with stdout := q.1, stderr := r.1 }, r.2)

/-- `ProcessProxy.close`: on the first call, optionally drain, close the
three pipe ends, terminate the still-running child (the
terminate/wait/kill ladder always ends with the child stopped and its
exceptions absorbed, which is what the model records), and set the
closed flag; later calls return at once. -/
def ProcProxy.close (p : ProcProxy) : ProcProxy :=
  if p.closed then p
  else
    let p1 := if p.autoDrain then (p.drain).1 else p
    let p2 := { p1 with
      stdin := p1.stdin.map PyFile.closeOp,
      stdout := p1.stdout.map PyFile.closeOp,
      stderr := p1.stderr.map PyFile.closeOp }
    { p2 with alive := false, closed := true }

/-- State of a `FlushProxy`: the wrapped binary file and the wrapper's
flags. -/
structure SockProxy where
  obj : PyFile
  autoDrain : Bool
  closed : Bool
deriving DecidableEq

/-- `FlushProxy.write`: convert the data, write, flush, return the
count.  There is no closed-proxy guard; a closed underlying file makes
the write raise. -/
def SockProxy.write (p : SockProxy) (d : PyData) : SockProxy × Except PyErr Nat :=
  match pyToNats d with
  | none => (p, .error .unicodeEncodeError)
  | some bs =>
    let q := p.obj.writeOp bs
    match q.2 with
    | .error e => ({ p with obj := q.1 }, .error e)
    | .ok n =>
      let r := q.1.flushOp
      match r.2 with
      | .error e => ({ p with obj := r.1 }, .error e)
      | .ok _ => ({ p with obj := r.1 }, .ok n)

/-- `FlushProxy.read`: a plain delegation to the underlying file, with
no closed-proxy guard. -/
def SockProxy.read (p : SockProxy) : SockProxy × Except PyErr (List Nat) :=
  let q := p.obj.read4096
  ({ p with obj := q.1 }, q.2)

/-- `FlushProxy.readline`: a plain delegation to the underlying file,
with no closed-proxy guard. -/
def SockProxy.readline (p : SockProxy) : SockProxy × Except PyErr (List Nat) :=
  let q := p.obj.readlineOp
  ({ p with obj := q.1 }, q.2)

/-- `FlushProxy.drain`: inside a catch-all `try`, when the raw object
has a `settimeout` attribute the timeout is saved and set to zero, the
read loop is run under `except (socket.error, BlockingIOError,
OSError)`, and the `finally` restores the timeout; a read on a closed
file raises `ValueError`, which that handler does not catch, but the
outer catch-all absorbs it after the restore.  The escaping-exception
component is therefore always `none`. -/
def SockProxy.drain (p : SockProxy) : SockProxy × Option PyErr :=
  if !p.obj.hasSettimeout then (p, none)
  else
    let orig := p.obj.timeout
    let o1 := { p.obj with timeout := some 0 }
    let q :=
      if o1.closed then (o1, some PyErr.valueError)
      else
        let r := drainReadLoop o1
        match r.2 with
        | some e => if e.isOSError then (r.1, none) else (r.1, some e)
        | none => (r.1, none)
    let o2 := { q.1 with timeout := orig }
    ({ p with obj := o2 }, none)

/-- `FlushProxy.close`: on the first call, optionally drain, close the
underlying file and set the closed flag; later calls return at once. -/
def SockProxy.close (p : SockProxy) : SockProxy :=
  if p.closed then p
  else
    let p1 := if p.autoDrain then (p.drain).1 else p
    { p1 with obj := p1.obj.closeOp, closed := true }

/-! ### The multiplexer `ProcessProxy.print` -/

/-- The two handles the multiplexer watches. -/
inductive Handle where
  | hout
  | herr
deriving DecidableEq

/-- State of one `ProcessProxy.print` invocation: the selector's
registered handles, the `fds_active` list, the two watched files and
the two sinks (`sys.stdout.buffer`, `sys.stderr.buffer`), modelled as
the byte lists written and flushed to them. -/
structure MuxState where
  registered : List Handle
  active : List Handle
  out : Option PyFile
  err : Option PyFile
  sinkOut : List Nat
  sinkErr : List Nat
deriving DecidableEq

/-- Read up to 4096 bytes from the file behind a handle. -/
def MuxState.readH (st : MuxState) (h : Handle) : MuxState × Except PyErr (List Nat) :=
  match h with
  | .hout =>
    match st.out with
    | some f =>
      let q := f.read4096
      ({ st with out := some q.1 }, q.2)
    | none => (st, .ok [])
  | .herr =>
    match st.err with
    | some f =>
      let q := f.read4096
      ({ st with err := some q.1 }, q.2)
    | none => (st, .ok [])

/-- `sel.unregister` followed by the `fds_active.remove`. -/
def MuxState.removeH (st : MuxState) (h : Handle) : MuxState :=
  { st with registered := st.registered.erase h, active := st.active.erase h }

/-- Write-and-flush a chunk to the sink bound to a handle. -/
def MuxState.writeSink (st : MuxState) (h : Handle) (bs : List Nat) : MuxState :=
  match h with
  | .hout => { st with sinkOut := st.sinkOut ++ bs }
  | .herr => { st with sinkErr := st.sinkErr ++ bs }

/-- The body of the `for key, _ in events` loop: read the handle inside
a catch-all `try` (an exception reads as `None`); a non-empty chunk is
written and flushed to the bound sink, an empty chunk or an exception
unregisters the handle and removes it from `fds_active`. -/
def processEvent (st : MuxState) (h : Handle) : MuxState :=
  let q := st.readH h
  match q.2 with
  | .ok bs => if bs = [] then q.1.removeH h else q.1.writeSink h bs
  | .error _ => q.1.removeH h

/-- Service every event of one wait cycle in the order the selector
reported them. -/
def processEvents (evs : List Handle) (st : MuxState) : MuxState :=
  evs.foldl processEvent st

/-- The `while fds_active` loop of `ProcessProxy.print`.  The schedule
is the environment: the handles the selector reports ready on each
successive wait, restricted to those still registered; an exhausted
schedule means no handle becomes ready again, which `sel.select`
reports as a timeout.  An empty event list breaks out of the loop
immediately.  (The `poll` check before looping is redundant: it only
breaks when `fds_active` is already empty, which the loop condition
catches; it is therefore not modelled separately.) -/
def printLoop : List (List Handle) → MuxState → MuxState
  | [], st => st
  | cycle :: rest, st =>
    if st.active = [] then st
    else
      let evs := cycle.filter (fun h => st.registered.contains h)
      if evs = [] then st
      else printLoop rest (processEvents evs st)

/-- `_make_nonblocking`: set `O_NONBLOCK` on the descriptor.  Note that
`print` never clears it again. -/
def setNonblock (f : PyFile) : PyFile := { f with flags := f.flags ||| O_NONBLOCK }

/-- `ProcessProxy.print`: a closed proxy returns at once; otherwise both
present streams are made non-blocking and registered (stdout first),
and the wait loop runs until timeout or exhaustion.  Takes the two
sinks and the readiness schedule; returns the proxy state and the
sinks. -/
def ProcProxy.print (p : ProcProxy) (sinkO sinkE : List Nat) (sched : List (List Handle)) :
    ProcProxy × List Nat × List Nat :=
  if p.closed then (p, sinkO, sinkE)
  else
    let regs := (if p.stdout.isSome then [Handle.hout] else []) ++
      (if p.stderr.isSome then [Handle.herr] else [])
    let st0 : MuxState :=
      { registered := regs, active := regs,
        out := p.stdout.map setNonblock, err := p.stderr.map setNonblock,
        sinkOut := sinkO, sinkErr := sinkE }
    let st1 := printLoop sched st0
    ({ p with stdout := st1.out, stderr := st1.err }, st1.sinkOut, st1.sinkErr)

/-! ### Well-formed HTTP messages and their wire form

To state the universally quantified framing claims we serialize message
descriptions to bytes.  The well-formedness constraints keep every
component inside the plain grammar of the specification (token-like
header names, single-space separators, CRLF line ends), which is also
the region where the simplified header parse above coincides with the
email parser of the standard library. -/

/-- Nats on which Python `str.splitlines` (used when the header block
is re-split by the email parser) breaks a line. -/
def isLineBreak (b : Nat) : Bool :=
  b = 10 || b = 11 || b = 12 || b = 13 || b = 28 || b = 29 || b = 30 || b = 133

/-- One header field of a message description. -/
structure HeaderField where
  hname : List Nat
  hvalue : List Nat
deriving DecidableEq

/-- A plain header field: a non-empty token name (printable ASCII, no
colon), a value with no line breaks that neither starts with blank nor
ends with a byte the value-strip would eat, and a line short enough for
the 65536-byte line limit. -/
@[reducible] def HeaderField.wf (h : HeaderField) : Prop :=
  h.hname ≠ [] ∧
  (∀ b ∈ h.hname, 33 ≤ b ∧ b ≤ 126 ∧ b ≠ 58) ∧
  (∀ b ∈ h.hvalue, isLineBreak b = false) ∧
  (∀ b, h.hvalue.head? = some b → b ≠ 32 ∧ b ≠ 9) ∧
  h.hname.length + h.hvalue.length + 4 ≤ 65536

/-- Wire form of a header field: `name: value` followed by CRLF. -/
def HeaderField.serialize (h : HeaderField) : List Nat :=
  h.hname ++ 58 :: 32 :: (h.hvalue ++ crlf)

/-- The (name, value) pair the parse is expected to produce. -/
def HeaderField.pair (h : HeaderField) : List Nat × List Nat :=
  (h.hname, h.hvalue)

/-- Wire form of a header block, blank terminator not included. -/
def serializeFields (hs : List HeaderField) : List Nat :=
  (hs.map HeaderField.serialize).flatten

/-- Numeric value of a decimal digit string. -/
def decVal (ds : List Nat) : Nat :=
  ds.foldl (fun a b => 10 * a + (b - 48)) 0

/-- Numeric value of one hexadecimal digit byte (0 on non-digits). -/
def hexDigitVal (b : Nat) : Nat := (hexDigit b).getD 0

/-- Numeric value of a hexadecimal digit string. -/
def hexVal (ds : List Nat) : Nat :=
  ds.foldl (fun a b => 16 * a + hexDigitVal b) 0

/-- Status line and header block of a message description.  The version
on the wire is `HTTP/1.` followed by `vtail`. -/
structure HttpHead where
  vtail : List Nat
  statusDigits : List Nat
  reason : List Nat
  fields : List HeaderField
deriving DecidableEq

/-- The version bytes of the description. -/
def HttpHead.version (h : HttpHead) : List Nat :=
  latin1 ("HTTP/1.") ++ h.vtail

/-- The status code of the description. -/
def HttpHead.code (h : HttpHead) : Int :=
  (decVal h.statusDigits : Int)

/-- Wire form of the status line. -/
def HttpHead.statusLine (h : HttpHead) : List Nat :=
  h.version ++ 32 :: (h.statusDigits ++ 32 :: (h.reason ++ crlf))

/-- Wire form of the head: status line, header block, blank line. -/
def HttpHead.serialize (h : HttpHead) : List Nat :=
  h.statusLine ++ serializeFields h.fields ++ crlf

/-- The header pairs of the description, as the parse should yield. -/
def HttpHead.pairs (h : HttpHead) : List (List Nat × List Nat) :=
  h.fields.map HeaderField.pair

/-- A well-formed head: version tail without whitespace, a non-empty
decimal status in 100..999, a reason with no newline that is empty or
starts with a non-blank byte, a status line below the line limit, at
most 99 well-formed header fields. -/
@[reducible] def HttpHead.wf (h : HttpHead) : Prop :=
  (∀ b ∈ h.vtail, isStrWs b = false) ∧
  h.statusDigits ≠ [] ∧
  (∀ b ∈ h.statusDigits, 48 ≤ b ∧ b ≤ 57) ∧
  100 ≤ decVal h.statusDigits ∧ decVal h.statusDigits ≤ 999 ∧
  10 ∉ h.reason ∧
  (∀ b, h.reason.head? = some b → isStrWs b = false) ∧
  h.statusLine.length ≤ 65536 ∧
  (∀ f ∈ h.fields, f.wf) ∧
  h.fields.length ≤ 99

/-- Wire form of one non-terminal chunk: hexadecimal size line, data,
CRLF. -/
def serializeChunk (c : List Nat × List Nat) : List Nat :=
  c.1 ++ crlf ++ c.2 ++ crlf

/-- Wire form of a chunk sequence. -/
def serializeChunks (cs : List (List Nat × List Nat)) : List Nat :=
  (cs.map serializeChunk).flatten

/-- Wire form of trailer lines (terminating blank line not included). -/
def serializeTrailers (ts : List (List Nat)) : List Nat :=
  (ts.map (fun t => t ++ crlf)).flatten

/-- Wire form of a chunked body: the chunks, the zero-size line, the
trailers, the blank terminator. -/
def chunkedBody (cs : List (List Nat × List Nat)) (ts : List (List Nat)) : List Nat :=
  serializeChunks cs ++ 48 :: crlf ++ (serializeTrailers ts ++ crlf)

/-- A well-formed chunk: a non-empty hexadecimal size line (short
enough for the line limit) whose value is the length of the non-empty
data. -/
@[reducible] def chunkWf (c : List Nat × List Nat) : Prop :=
  c.1 ≠ [] ∧ (∀ b ∈ c.1, (hexDigit b).isSome) ∧
  c.1.length + 2 ≤ 65536 ∧
  hexVal c.1 = c.2.length ∧ c.2 ≠ []

/-- A well-formed trailer line: non-empty, no newline, short enough. -/
@[reducible] def trailerWf (t : List Nat) : Prop :=
  t ≠ [] ∧ 10 ∉ t ∧ t.length + 2 ≤ 65536

/-- Body framing of a message description: a literal body measured by
`Content-Length`, or a chunked body. -/
inductive MsgBody where
  | byLength (body : List Nat)
  | byChunks (cs : List (List Nat × List Nat)) (ts : List (List Nat))
deriving DecidableEq

/-- A full message description. -/
structure HttpMsg where
  head : HttpHead
  mbody : MsgBody
deriving DecidableEq

/-- Wire form of the body. -/
def MsgBody.serialize : MsgBody → List Nat
  | .byLength body => body
  | .byChunks cs ts => chunkedBody cs ts

/-- Wire form of a full message. -/
def HttpMsg.serialize (m : HttpMsg) : List Nat :=
  m.head.serialize ++ m.mbody.serialize

/-- Agreement of a body with the framing headers of a head.  A
length-framed body requires the header block not to announce chunked
encoding, to carry a content length equal to the body length, and a
status whose body length the library does not force to zero.  A chunked
body requires the header block to announce chunked encoding, well-formed
chunks and trailers, and a status other than 100 (which the library
skips over). -/
@[reducible] def MsgBody.wfFor (hd : HttpHead) : MsgBody → Prop
  | .byLength body =>
    teChunked hd.pairs = false ∧
    clLength false hd.pairs = some (body.length : Int) ∧
    forcedZero hd.code = false
  | .byChunks cs ts =>
    teChunked hd.pairs = true ∧
    hd.code ≠ 100 ∧
    (∀ c ∈ cs, chunkWf c) ∧
    (∀ t ∈ ts, trailerWf t)

/-- A well-formed message: a well-formed head whose framing headers
agree with the body. -/
@[reducible] def HttpMsg.wf (m : HttpMsg) : Prop :=
  m.head.wf ∧ m.mbody.wfFor m.head

instance decWfFor (hd : HttpHead) : (mb : MsgBody) → Decidable (mb.wfFor hd)
  | .byLength body =>
    show Decidable (teChunked hd.pairs = false ∧
      clLength false hd.pairs = some (body.length : Int) ∧
      forcedZero hd.code = false) from inferInstance
  | .byChunks cs ts =>
    show Decidable (teChunked hd.pairs = true ∧ hd.code ≠ 100 ∧
      (∀ c ∈ cs, chunkWf c) ∧ (∀ t ∈ ts, trailerWf t)) from inferInstance

instance decMsgWf (m : HttpMsg) : Decidable m.wf :=
  inferInstanceAs (Decidable (m.head.wf ∧ m.mbody.wfFor m.head))

/-! ### Lemmas: reading lines and parsing numbers -/

theorem readlineFp_append (limit : Nat) (xs ys : List Nat)
    (hx : 10 ∉ xs) (hlen : xs.length < limit) :
    readlineFp limit (xs ++ 10 :: ys) = (xs ++ [10], ys) := by
  induction xs generalizing limit with
  | nil =>
    match limit, hlen with
    | l + 1, _ => simp [readlineFp]
  | cons b tl ih =>
    match limit, hlen with
    | l + 1, hlen =>
      have hb : b ≠ 10 := fun h => hx (h ▸ List.mem_cons_self b tl)
      have hl : tl.length < l := by
        simpa using Nat.lt_of_succ_lt_succ hlen
      simp [readlineFp, hb, ih l (fun h => hx (List.mem_cons_of_mem _ h)) hl]

theorem readlineFp_all (limit : Nat) (xs : List Nat)
    (hx : 10 ∉ xs) (hlen : xs.length ≤ limit) :
    readlineFp limit xs = (xs, []) := by
  induction xs generalizing limit with
  | nil => cases limit <;> simp [readlineFp]
  | cons b tl ih =>
    match limit, hlen with
    | l + 1, hlen =>
      have hb : b ≠ 10 := fun h => hx (h ▸ List.mem_cons_self b tl)
      have hl : tl.length ≤ l := by simpa using Nat.le_of_succ_le_succ hlen
      simp [readlineFp, hb, ih l (fun h => hx (List.mem_cons_of_mem _ h)) hl]

theorem dropWhile_eq_self_of_neg {p : Nat → Bool} {xs : List Nat}
    (h : ∀ b ∈ xs, p b = false) : xs.dropWhile p = xs := by
  cases xs with
  | nil => rfl
  | cons b tl =>
    have : ¬ p b = true := by simp [h b (List.mem_cons_self b tl)]
    simp [List.dropWhile_cons_of_neg this]

theorem stripWs_append {p : Nat → Bool} {xs ys : List Nat}
    (hxs : ∀ b ∈ xs, p b = false) (hys : ∀ b ∈ ys, p b = true) :
    stripWs p (xs ++ ys) = xs := by
  unfold stripWs
  cases xs with
  | nil =>
    have : ys.dropWhile p = [] := by
      induction ys with
      | nil => rfl
      | cons c tl ih =>
        simp [List.dropWhile_cons_of_pos (hys c (List.mem_cons_self c tl)),
          ih (fun b hb => hys b (List.mem_cons_of_mem _ hb))]
    simp [this]
  | cons b tl =>
    have hb : ¬ p b = true := by simp [hxs b (List.mem_cons_self b tl)]
    rw [List.cons_append, List.dropWhile_cons_of_neg hb]
    have hrev : ((b :: tl) ++ ys).reverse = ys.reverse ++ (b :: tl).reverse := by
      simp
    rw [← List.cons_append, hrev,
      List.dropWhile_append_of_pos (fun a ha => hys a (List.mem_reverse.mp ha)),
      dropWhile_eq_self_of_neg (fun a ha => hxs a (List.mem_reverse.mp ha)),
      List.reverse_reverse]

theorem parseUDCont_ok (dv : Nat → Option Nat) (base : Nat) (h95 : dv 95 = none) :
    ∀ (ds : List Nat) (acc : Nat), (∀ b ∈ ds, (dv b).isSome) →
    parseUDCont dv base acc ds =
      some (ds.foldl (fun a b => base * a + (dv b).getD 0) acc) := by
  intro ds
  induction ds with
  | nil => intro acc _; rfl
  | cons b tl ih =>
    intro acc hds
    have hb : (dv b).isSome := hds b (List.mem_cons_self b tl)
    have hb95 : b ≠ 95 := by
      intro h
      rw [h, h95] at hb
      simp at hb
    obtain ⟨d, hd⟩ := Option.isSome_iff_exists.mp hb
    rw [parseUDCont.eq_def]
    simp only [if_neg hb95, hd]
    rw [ih (acc * base + d) (fun x hx => hds x (List.mem_cons_of_mem _ hx))]
    simp only [List.foldl_cons, hd, Option.getD_some]
    rw [Nat.mul_comm acc base]

theorem parseUD_ok (dv : Nat → Option Nat) (base : Nat) (h95 : dv 95 = none)
    (b : Nat) (tl : List Nat) (hds : ∀ x ∈ b :: tl, (dv x).isSome) :
    parseUD dv base (b :: tl) =
      some ((b :: tl).foldl (fun a x => base * a + (dv x).getD 0) 0) := by
  obtain ⟨d, hd⟩ := Option.isSome_iff_exists.mp (hds b (List.mem_cons_self b tl))
  simp only [parseUD, hd]
  rw [parseUDCont_ok dv base h95 tl d (fun x hx => hds x (List.mem_cons_of_mem _ hx))]
  simp [hd]

theorem decDigit_isSome {b : Nat} (h : 48 ≤ b ∧ b ≤ 57) : (decDigit b).isSome := by
  simp [decDigit, h]

theorem decDigit_not_strWs {b : Nat} (h : 48 ≤ b ∧ b ≤ 57) : isStrWs b = false := by
  simp only [isStrWs, Bool.or_eq_false_iff, decide_eq_false_iff_not]
  omega

theorem hexDigit_not_asciiWs {b : Nat} (h : (hexDigit b).isSome) : isAsciiWs b = false := by
  simp only [hexDigit] at h
  simp only [isAsciiWs, Bool.or_eq_false_iff, decide_eq_false_iff_not]
  split at h
  · omega
  · split at h
    · omega
    · split at h
      · omega
      · simp at h

theorem foldl_decDigit_eq (ds : List Nat) (h : ∀ b ∈ ds, 48 ≤ b ∧ b ≤ 57) :
    ∀ acc : Nat, ds.foldl (fun a b => 10 * a + (decDigit b).getD 0) acc =
      ds.foldl (fun a b => 10 * a + (b - 48)) acc := by
  induction ds with
  | nil => intro acc; rfl
  | cons b tl ih =>
    intro acc
    have hb := h b (List.mem_cons_self b tl)
    simp only [List.foldl_cons, decDigit, if_pos hb, Option.getD_some]
    exact ih (fun x hx => h x (List.mem_cons_of_mem _ hx)) _

theorem pyIntDec_digits (ds ws : List Nat) (hne : ds ≠ [])
    (hds : ∀ b ∈ ds, 48 ≤ b ∧ b ≤ 57) (hws : ∀ b ∈ ws, isStrWs b = true) :
    pyIntDec (ds ++ ws) = some ((decVal ds : Nat) : Int) := by
  have hstrip : stripWs isStrWs (ds ++ ws) = ds :=
    stripWs_append (fun b hb => decDigit_not_strWs (hds b hb)) hws
  cases ds with
  | nil => exact absurd rfl hne
  | cons b tl =>
    have hb := hds b (List.mem_cons_self b tl)
    have h43 : b ≠ 43 := by omega
    have h45 : b ≠ 45 := by omega
    unfold pyIntDec
    rw [hstrip]
    simp only [if_neg h43, if_neg h45]
    rw [parseUD_ok decDigit 10 (by simp [decDigit]) b tl
      (fun x hx => decDigit_isSome (hds x hx))]
    rw [foldl_decDigit_eq (b :: tl) hds]
    rfl

theorem hexDigit_ne_120 {b : Nat} (h : (hexDigit b).isSome) : b ≠ 120 := by
  intro hb
  rw [hb] at h
  simp [hexDigit] at h

theorem hexDigit_ne_88 {b : Nat} (h : (hexDigit b).isSome) : b ≠ 88 := by
  intro hb
  rw [hb] at h
  simp [hexDigit] at h

theorem hexDigit_95 : hexDigit 95 = none := by simp [hexDigit]

theorem parseHexBody_digits (ds : List Nat) (hds : ∀ b ∈ ds, (hexDigit b).isSome) :
    parseHexBody ds = parseUD hexDigit 16 ds := by
  match ds with
  | [] => rfl
  | [b] => rfl
  | b :: x :: tl =>
    have hx := hds x (List.mem_cons_of_mem _ (List.mem_cons_self x tl))
    have : ¬ (b = 48 ∧ (x = 120 ∨ x = 88)) := by
      rintro ⟨-, hor⟩
      rcases hor with h | h
      · exact hexDigit_ne_120 hx h
      · exact hexDigit_ne_88 hx h
    simp only [parseHexBody, if_neg this]

theorem pyIntHex_digits (ds ws : List Nat) (hne : ds ≠ [])
    (hds : ∀ b ∈ ds, (hexDigit b).isSome) (hws : ∀ b ∈ ws, isAsciiWs b = true) :
    pyIntHex (ds ++ ws) = some ((hexVal ds : Nat) : Int) := by
  have hstrip : stripWs isAsciiWs (ds ++ ws) = ds :=
    stripWs_append (fun b hb => hexDigit_not_asciiWs (hds b hb)) hws
  cases ds with
  | nil => exact absurd rfl hne
  | cons b tl =>
    have hb := hds b (List.mem_cons_self b tl)
    have h43 : b ≠ 43 := by
      intro h; rw [h] at hb; simp [hexDigit] at hb
    have h45 : b ≠ 45 := by
      intro h; rw [h] at hb; simp [hexDigit] at hb
    unfold pyIntHex
    rw [hstrip]
    simp only [if_neg h43, if_neg h45]
    rw [parseHexBody_digits (b :: tl) hds,
      parseUD_ok hexDigit 16 hexDigit_95 b tl hds]
    rfl

/-! ### Lemmas: splitting and reading the status line -/

theorem dropWhile_ws_keep {T z : List Nat} (hT : T ≠ [])
    (hTw : ∀ b ∈ T, isStrWs b = false) :
    (T ++ z).dropWhile isStrWs = T ++ z := by
  cases T with
  | nil => exact absurd rfl hT
  | cons b tl =>
    have : ¬ isStrWs b = true := by simp [hTw b (List.mem_cons_self b tl)]
    rw [List.cons_append, List.dropWhile_cons_of_neg this]

theorem takeWhile_token {T z : List Nat} (hTw : ∀ b ∈ T, isStrWs b = false) :
    (T ++ 32 :: z).takeWhile (fun b => !isStrWs b) = T := by
  rw [List.takeWhile_append_of_pos (by intro a ha; simp [hTw a ha])]
  simp [List.takeWhile_cons_of_neg, isStrWs]

theorem dropWhile_token {T z : List Nat} (hTw : ∀ b ∈ T, isStrWs b = false) :
    (T ++ 32 :: z).dropWhile (fun b => !isStrWs b) = 32 :: z := by
  rw [List.dropWhile_append_of_pos (by intro a ha; simp [hTw a ha])]
  rw [List.dropWhile_cons_of_neg (by simp [isStrWs])]

theorem pySplitWs_two_eq (s : List Nat) : pySplitWs 2 s =
    (let s1 := s.dropWhile isStrWs
    if s1 = [] then []
    else
      let t := s1.takeWhile (fun b => !isStrWs b)
      let r := s1.dropWhile (fun b => !isStrWs b)
      t :: pySplitWs 1 r) := rfl

theorem pySplitWs_one_eq (s : List Nat) : pySplitWs 1 s =
    (let s1 := s.dropWhile isStrWs
    if s1 = [] then []
    else
      let t := s1.takeWhile (fun b => !isStrWs b)
      let r := s1.dropWhile (fun b => !isStrWs b)
      t :: pySplitWs 0 r) := rfl

theorem pySplitWs_zero_eq (s : List Nat) : pySplitWs 0 s =
    (let s1 := s.dropWhile isStrWs
    if s1 = [] then [] else [s1]) := rfl

theorem pySplitWs_statusLine_pos (V D R : List Nat)
    (hV : V ≠ []) (hVw : ∀ b ∈ V, isStrWs b = false)
    (hD : D ≠ []) (hDw : ∀ b ∈ D, isStrWs b = false)
    (hR : R ≠ []) (hRh : ∀ b, R.head? = some b → isStrWs b = false) :
    pySplitWs 2 (V ++ 32 :: (D ++ 32 :: (R ++ crlf))) = [V, D, R ++ crlf] := by
  obtain ⟨r0, Rtl, rfl⟩ : ∃ r0 Rtl, R = r0 :: Rtl := by
    cases R with
    | nil => exact absurd rfl hR
    | cons a b => exact ⟨a, b, rfl⟩
  have hr0 : isStrWs r0 = false := hRh r0 rfl
  rw [pySplitWs_two_eq]
  simp only [dropWhile_ws_keep hV hVw]
  rw [if_neg (by simp [hV])]
  simp only [takeWhile_token hVw, dropWhile_token hVw]
  rw [pySplitWs_one_eq]
  simp only [List.dropWhile_cons_of_pos (show isStrWs 32 = true by decide)]
  simp only [dropWhile_ws_keep hD hDw]
  rw [if_neg (by simp [hD])]
  simp only [takeWhile_token hDw, dropWhile_token hDw]
  rw [pySplitWs_zero_eq]
  simp only [List.dropWhile_cons_of_pos (show isStrWs 32 = true by decide)]
  rw [List.cons_append, List.dropWhile_cons_of_neg (by simp [hr0])]
  simp

theorem pySplitWs_statusLine_nil2 (V D : List Nat)
    (hV : V ≠ []) (hVw : ∀ b ∈ V, isStrWs b = false)
    (hD : D ≠ []) (hDw : ∀ b ∈ D, isStrWs b = false) :
    pySplitWs 2 (V ++ 32 :: (D ++ 32 :: crlf)) = [V, D] := by
  rw [pySplitWs_two_eq]
  simp only [dropWhile_ws_keep hV hVw]
  rw [if_neg (by simp [hV])]
  simp only [takeWhile_token hVw, dropWhile_token hVw]
  rw [pySplitWs_one_eq]
  simp only [List.dropWhile_cons_of_pos (show isStrWs 32 = true by decide)]
  simp only [dropWhile_ws_keep hD hDw]
  rw [if_neg (by simp [hD])]
  simp only [takeWhile_token hDw, dropWhile_token hDw]
  rw [pySplitWs_zero_eq]
  simp only [List.dropWhile_cons_of_pos (show isStrWs 32 = true by decide)]
  have h0 : crlf.dropWhile isStrWs = [] := by decide
  simp [h0]

theorem pySplitWs_statusLine_nil1 (V D : List Nat)
    (hV : V ≠ []) (hVw : ∀ b ∈ V, isStrWs b = false)
    (hD : D ≠ []) (hDw : ∀ b ∈ D, isStrWs b = false) :
    pySplitWs 1 (V ++ 32 :: (D ++ 32 :: crlf)) = [V, D ++ 32 :: crlf] := by
  rw [pySplitWs_one_eq]
  simp only [dropWhile_ws_keep hV hVw]
  rw [if_neg (by simp [hV])]
  simp only [takeWhile_token hVw, dropWhile_token hVw]
  rw [pySplitWs_zero_eq]
  simp only [List.dropWhile_cons_of_pos (show isStrWs 32 = true by decide)]
  simp only [dropWhile_ws_keep hD hDw]
  rw [if_neg (by simp [hD])]

theorem checkStatusParts_digits (V D ws : List Nat)
    (hpre : (latin1 ("HTTP/")).isPrefixOf V = true)
    (hD : D ≠ []) (hDdig : ∀ b ∈ D, 48 ≤ b ∧ b ≤ 57)
    (hws : ∀ b ∈ ws, isStrWs b = true)
    (h100 : 100 ≤ decVal D) (h999 : decVal D ≤ 999) :
    checkStatusParts V (D ++ ws) = .ok (V, (decVal D : Int)) := by
  unfold checkStatusParts
  rw [if_pos hpre, pyIntDec_digits D ws hD hDdig hws]
  have hrange : ¬ ((decVal D : Int) < 100 ∨ (decVal D : Int) > 999) := by
    omega
  simp only [if_neg hrange]

theorem readStatus_line (V D R rest : List Nat)
    (hV : V ≠ []) (hVw : ∀ b ∈ V, isStrWs b = false)
    (hD : D ≠ []) (hDdig : ∀ b ∈ D, 48 ≤ b ∧ b ≤ 57)
    (h100 : 100 ≤ decVal D) (h999 : decVal D ≤ 999)
    (hR10 : 10 ∉ R) (hRh : ∀ b, R.head? = some b → isStrWs b = false)
    (hpre : (latin1 ("HTTP/")).isPrefixOf V = true)
    (hlen : (V ++ 32 :: (D ++ 32 :: (R ++ crlf))).length ≤ 65536) :
    readStatus ((V ++ 32 :: (D ++ 32 :: (R ++ crlf))) ++ rest) =
      .ok (V ++ 32 :: (D ++ 32 :: (R ++ crlf)), V, (decVal D : Int), rest) := by
  have hDw : ∀ b ∈ D, isStrWs b = false := fun b hb => decDigit_not_strWs (hDdig b hb)
  have hflat : (V ++ 32 :: (D ++ 32 :: (R ++ crlf))) ++ rest =
      (V ++ 32 :: (D ++ 32 :: (R ++ [13]))) ++ 10 :: rest := by
    simp [crlf]
  have h10 : 10 ∉ V ++ 32 :: (D ++ 32 :: (R ++ [13])) := by
    intro hmem
    rcases List.mem_append.mp hmem with h | h
    · have := hVw 10 h; simp [isStrWs] at this
    · rcases List.mem_cons.mp h with h | h
      · omega
      · rcases List.mem_append.mp h with h | h
        · have := hDdig 10 h; omega
        · rcases List.mem_cons.mp h with h | h
          · omega
          · rcases List.mem_append.mp h with h | h
            · exact hR10 h
            · simp at h
  have hlen1 : (V ++ 32 :: (D ++ 32 :: (R ++ [13]))).length + 1 =
      (V ++ 32 :: (D ++ 32 :: (R ++ crlf))).length := by
    simp [crlf]
    omega
  have hlt : (V ++ 32 :: (D ++ 32 :: (R ++ [13]))).length < 65537 := by omega
  have hline : V ++ 32 :: (D ++ 32 :: (R ++ [13])) ++ [10] =
      V ++ 32 :: (D ++ 32 :: (R ++ crlf)) := by
    simp [crlf]
  rw [hflat]
  unfold readStatus
  rw [readlineFp_append 65537 _ rest h10 hlt]
  simp only [hline]
  rw [if_neg (by omega)]
  rw [if_neg (by simp [hV])]
  cases R with
  | nil =>
    simp only [List.nil_append]
    rw [pySplitWs_statusLine_nil2 V D hV hVw hD hDw,
      pySplitWs_statusLine_nil1 V D hV hVw hD hDw]
    have hcs := checkStatusParts_digits V D (32 :: crlf) hpre hD hDdig (by decide) h100 h999
    simp [hcs]
  | cons r0 Rtl =>
    rw [pySplitWs_statusLine_pos V D (r0 :: Rtl) hV hVw hD hDw (by simp) hRh]
    have hcs := checkStatusParts_digits V D [] hpre hD hDdig (by simp) h100 h999
    rw [List.append_nil] at hcs
    simp [hcs]

/-! ### Lemmas: reading and parsing the header block -/

theorem serializeFields_cons (f : HeaderField) (hs : List HeaderField) :
    serializeFields (f :: hs) = f.serialize ++ serializeFields hs := by
  simp [serializeFields]

theorem HeaderField.serialize_flat (f : HeaderField) :
    f.serialize = (f.hname ++ 58 :: 32 :: (f.hvalue ++ [13])) ++ [10] := by
  simp [HeaderField.serialize, crlf]

theorem HeaderField.no_newline (f : HeaderField) (hwf : f.wf) :
    10 ∉ f.hname ++ 58 :: 32 :: (f.hvalue ++ [13]) := by
  obtain ⟨-, hn, hv, -, -⟩ := hwf
  intro hmem
  rcases List.mem_append.mp hmem with h | h
  · have := hn 10 h; omega
  · rcases List.mem_cons.mp h with h | h
    · omega
    · rcases List.mem_cons.mp h with h | h
      · omega
      · rcases List.mem_append.mp h with h | h
        · have := hv 10 h; simp [isLineBreak] at this
        · simp at h

theorem readHeaderLinesAux_serialized (hs : List HeaderField) :
    ∀ (fuel : Nat) (rest : List Nat), hs.length < fuel → (∀ f ∈ hs, f.wf) →
    readHeaderLinesAux fuel (serializeFields hs ++ (crlf ++ rest)) =
      .ok ((hs.map HeaderField.serialize) ++ [crlf], rest) := by
  induction hs with
  | nil =>
    intro fuel rest hfuel _
    obtain ⟨fuel', rfl⟩ : ∃ k, fuel = k + 1 := by
      cases fuel with
      | zero => omega
      | succ k => exact ⟨k, rfl⟩
    have hline : readlineFp 65537 ([13] ++ 10 :: rest) = ([13] ++ [10], rest) :=
      readlineFp_append 65537 [13] rest (by simp) (by simp)
    rw [readHeaderLinesAux.eq_def]
    simp only [serializeFields, List.map_nil, List.flatten_nil, List.nil_append]
    rw [show crlf ++ rest = [13] ++ 10 :: rest from by simp [crlf]]
    rw [hline]
    simp [crlf]
  | cons f hs' ih =>
    intro fuel rest hfuel hwf
    obtain ⟨fuel', rfl⟩ : ∃ k, fuel = k + 1 := by
      cases fuel with
      | zero => omega
      | succ k => exact ⟨k, rfl⟩
    have hfwf := hwf f (List.mem_cons_self f hs')
    have hstream : serializeFields (f :: hs') ++ (crlf ++ rest) =
        (f.hname ++ 58 :: 32 :: (f.hvalue ++ [13])) ++
          10 :: (serializeFields hs' ++ (crlf ++ rest)) := by
      rw [serializeFields_cons, HeaderField.serialize_flat]
      simp
    have hlenf : (f.hname ++ 58 :: 32 :: (f.hvalue ++ [13])).length < 65537 := by
      have := hfwf.2.2.2.2
      simp only [List.length_append, List.length_cons]
      simp
      omega
    have hline := readlineFp_append 65537 (f.hname ++ 58 :: 32 :: (f.hvalue ++ [13]))
      (serializeFields hs' ++ (crlf ++ rest)) (f.no_newline hfwf) hlenf
    rw [hstream, readHeaderLinesAux.eq_def]
    simp only [hline]
    rw [← HeaderField.serialize_flat]
    obtain ⟨n0, ntl, hn0⟩ : ∃ n0 ntl, f.hname = n0 :: ntl := by
      cases hname : f.hname with
      | nil => exact absurd hname hfwf.1
      | cons a b => exact ⟨a, b, rfl⟩
    have hn0r := hfwf.2.1 n0 (by rw [hn0]; exact List.mem_cons_self n0 ntl)
    have hser : f.serialize = n0 :: (ntl ++ 58 :: 32 :: (f.hvalue ++ crlf)) := by
      rw [HeaderField.serialize, hn0]
      simp
    have hlen : ¬ f.serialize.length > 65536 := by
      rw [HeaderField.serialize]
      have := hfwf.2.2.2.2
      simp only [List.length_append, List.length_cons]
      simp [crlf]
      omega
    rw [if_neg hlen]
    have hnotblank : ¬ (f.serialize = [13, 10] ∨ f.serialize = [10] ∨ f.serialize = []) := by
      rw [hser]
      intro hor
      rcases hor with h | h | h
      · have := List.head_eq_of_cons_eq h; omega
      · have := List.head_eq_of_cons_eq h; omega
      · simp at h
    rw [if_neg hnotblank]
    rw [ih fuel' rest (by simpa using Nat.lt_of_succ_lt_succ hfuel)
      (fun g hg => hwf g (List.mem_cons_of_mem _ hg))]
    simp

theorem rstripCRLF_append (v : List Nat) (hv : ∀ b ∈ v, isLineBreak b = false) :
    rstripCRLF (v ++ crlf) = v := by
  unfold rstripCRLF
  rw [show v ++ crlf = v ++ [13] ++ [10] from by simp [crlf]]
  simp only [List.reverse_append, List.reverse_cons, List.reverse_nil, List.nil_append]
  rw [show ([10] : List Nat) ++ ([13] ++ v.reverse) = 10 :: 13 :: v.reverse from by simp]
  rw [List.dropWhile_cons_of_pos (by decide), List.dropWhile_cons_of_pos (by decide)]
  rw [dropWhile_eq_self_of_neg (fun b hb => by
    have := hv b (List.mem_reverse.mp hb)
    simp only [isLineBreak, Bool.or_eq_false_iff, decide_eq_false_iff_not] at this
    simp only [Bool.or_eq_false_iff, decide_eq_false_iff_not]
    omega)]
  exact List.reverse_reverse v

theorem lstripSpTab_value (v : List Nat)
    (hv : ∀ b, v.head? = some b → b ≠ 32 ∧ b ≠ 9) :
    lstripSpTab (32 :: (v ++ crlf)) = v ++ crlf := by
  unfold lstripSpTab
  rw [List.dropWhile_cons_of_pos (by decide)]
  cases v with
  | nil =>
    simp only [List.nil_append, crlf]
    rw [List.dropWhile_cons_of_neg (by decide)]
  | cons v0 vt =>
    have := hv v0 rfl
    rw [List.cons_append, List.dropWhile_cons_of_neg (by simp [this.1, this.2])]

theorem findIdx?_first (p : Nat → Bool) (xs : List Nat) (y : Nat) (ys : List Nat)
    (hxs : ∀ x ∈ xs, p x = false) (hy : p y = true) :
    (xs ++ y :: ys).findIdx? p = some xs.length := by
  induction xs with
  | nil => simp [List.findIdx?_cons, hy]
  | cons x tl ih =>
    have hx : p x = false := hxs x (List.mem_cons_self x tl)
    rw [List.cons_append]
    rw [List.findIdx?_cons]
    simp only [hx, if_false, Bool.false_eq_true]
    rw [List.findIdx?_start_succ]
    rw [ih (fun a ha => hxs a (List.mem_cons_of_mem _ ha))]
    simp [Nat.add_comm]

theorem splitColon?_serialized (f : HeaderField) (hwf : f.wf) :
    splitColon? f.serialize = some (f.hname, 32 :: (f.hvalue ++ crlf)) := by
  have hfind : f.serialize.findIdx? (fun b => b = 58) = some f.hname.length := by
    rw [HeaderField.serialize]
    exact findIdx?_first _ f.hname 58 _
      (fun x hx => by
        have := hwf.2.1 x hx
        simp only [decide_eq_false_iff_not]
        omega)
      (by simp)
  unfold splitColon?
  rw [hfind]
  have hne : f.hname.length ≠ 0 := by
    intro h
    exact hwf.1 (List.eq_nil_of_length_eq_zero h)
  simp only [if_neg hne]
  rw [HeaderField.serialize]
  rw [List.take_left, show (58 : Nat) :: 32 :: (f.hvalue ++ crlf) = [58] ++ (32 :: (f.hvalue ++ crlf)) from rfl]
  rw [show f.hname.length + 1 = (f.hname ++ [58]).length from by simp]
  rw [← List.append_assoc, List.drop_left]

theorem parseHeaderLinesAux_serialized (hs : List HeaderField) :
    ∀ cur, (∀ f ∈ hs, f.wf) →
    parseHeaderLinesAux cur (hs.map HeaderField.serialize) =
      flushHeader cur ++ hs.map HeaderField.pair := by
  induction hs with
  | nil => intro cur _; simp [parseHeaderLinesAux]
  | cons f hs' ih =>
    intro cur hwf
    have hfwf := hwf f (List.mem_cons_self f hs')
    obtain ⟨n0, ntl, hn0⟩ : ∃ n0 ntl, f.hname = n0 :: ntl := by
      cases hname : f.hname with
      | nil => exact absurd hname hfwf.1
      | cons a b => exact ⟨a, b, rfl⟩
    have hn0r := hfwf.2.1 n0 (by rw [hn0]; exact List.mem_cons_self n0 ntl)
    have hser : f.serialize = n0 :: (ntl ++ 58 :: 32 :: (f.hvalue ++ crlf)) := by
      rw [HeaderField.serialize, hn0]
      simp
    have hcont : isContinuation f.serialize = false := by
      rw [hser]
      simp only [isContinuation, Bool.or_eq_false_iff, decide_eq_false_iff_not]
      omega
    rw [List.map_cons, parseHeaderLinesAux.eq_def]
    simp only [hcont, Bool.false_eq_true, if_false, if_neg]
    rw [splitColon?_serialized f hfwf]
    simp only []
    rw [lstripSpTab_value f.hvalue hfwf.2.2.2.1]
    rw [ih (some (f.hname, f.hvalue ++ crlf)) (fun g hg => hwf g (List.mem_cons_of_mem _ hg))]
    rw [show flushHeader (some (f.hname, f.hvalue ++ crlf)) =
        [(f.hname, rstripCRLF (f.hvalue ++ crlf))] from rfl]
    rw [rstripCRLF_append f.hvalue hfwf.2.2.1]
    simp [HeaderField.pair]

/-! ### The begin lemma: a well-formed head is consumed exactly -/

theorem latin1_http17 : latin1 ("HTTP/1.") = [72, 84, 84, 80, 47, 49, 46] := rfl

theorem latin1_http5 : latin1 ("HTTP/") = [72, 84, 84, 80, 47] := rfl

theorem version_ne_nil (hd : HttpHead) : hd.version ≠ [] := by
  rw [HttpHead.version, latin1_http17]
  simp

theorem version_not_ws (hd : HttpHead) (hvt : ∀ b ∈ hd.vtail, isStrWs b = false) :
    ∀ b ∈ hd.version, isStrWs b = false := by
  intro b hb
  rw [HttpHead.version, latin1_http17] at hb
  rcases List.mem_append.mp hb with h | h
  · fin_cases h <;> decide
  · exact hvt b h

theorem version_prefix5 (hd : HttpHead) :
    (latin1 ("HTTP/")).isPrefixOf hd.version = true := by
  rw [List.isPrefixOf_iff_prefix]
  have : hd.version = latin1 ("HTTP/") ++ ([49, 46] ++ hd.vtail) := by
    rw [HttpHead.version, latin1_http17, latin1_http5]
    simp
  rw [this]
  exact List.prefix_append _ _

theorem version_prefix17 (hd : HttpHead) :
    (latin1 ("HTTP/1.")).isPrefixOf hd.version = true := by
  rw [List.isPrefixOf_iff_prefix, HttpHead.version]
  exact List.prefix_append _ _

theorem begin_serialized (hd : HttpHead) (rest : List Nat) (hwf : hd.wf)
    (hn100 : decVal hd.statusDigits ≠ 100) :
    begin (hd.serialize ++ rest) =
      .ok (hd.serialize, computeInfo hd.code hd.pairs, rest) := by
  obtain ⟨hvt, hDne, hDdig, h100, h999, hR10, hRh, hslen, hfs, hfl⟩ := hwf
  have hslen' : (hd.version ++ 32 :: (hd.statusDigits ++ 32 :: (hd.reason ++ crlf))).length ≤ 65536 := by
    rw [HttpHead.statusLine] at hslen
    exact hslen
  have hreadst := readStatus_line hd.version hd.statusDigits hd.reason
    (serializeFields hd.fields ++ (crlf ++ rest))
    (version_ne_nil hd) (version_not_ws hd hvt) hDne hDdig h100 h999 hR10 hRh
    (version_prefix5 hd) hslen'
  have hs_assoc : hd.serialize ++ rest =
      (hd.version ++ 32 :: (hd.statusDigits ++ 32 :: (hd.reason ++ crlf))) ++
        (serializeFields hd.fields ++ (crlf ++ rest)) := by
    rw [HttpHead.serialize, HttpHead.statusLine]
    simp
  have hn100i : ¬ ((decVal hd.statusDigits : Int) = 100) := by omega
  have hrhl := readHeaderLinesAux_serialized hd.fields 100 rest (by omega) hfs
  unfold begin
  rw [hs_assoc, beginLoop.eq_def]
  simp only [hreadst, hn100i, if_false, if_neg hn100i]
  rw [if_pos (Or.inr (version_prefix17 hd))]
  simp only [hrhl]
  rw [List.dropLast_concat]
  rw [parseHeaderLinesAux_serialized hd.fields none hfs]
  have hflat : (List.map HeaderField.serialize hd.fields ++ [crlf]).flatten =
      serializeFields hd.fields ++ crlf := by
    rw [List.flatten_append]
    simp [serializeFields]
  rw [hflat]
  have hfinal : hd.version ++ 32 :: (hd.statusDigits ++ 32 :: (hd.reason ++ crlf)) ++
      (serializeFields hd.fields ++ crlf) = hd.serialize := by
    rw [HttpHead.serialize, HttpHead.statusLine]
    simp
  rw [hfinal]
  rfl

/-! ### Lemmas: reading the body -/

theorem readFp_append (xs ys : List Nat) : readFp (xs.length : Int) (xs ++ ys) = (xs, ys) := by
  unfold readFp
  rw [if_neg (show ¬ ((xs.length : Int) < 0) from by omega)]
  simp [Int.toNat_natCast, List.take_left, List.drop_left]

theorem safeRead_append (xs ys : List Nat) :
    safeRead (xs.length : Int) (xs ++ ys) = .ok (xs, ys) := by
  unfold safeRead
  rw [readFp_append]
  rw [if_neg (show ¬ (((xs, ys).1.length : Int) < (xs.length : Int)) from by simp)]

theorem readFp_short (n : Int) (s : List Nat) (h : (s.length : Int) < n) :
    readFp n s = (s, []) := by
  unfold readFp
  rw [if_neg (by omega)]
  have h1 : s.take n.toNat = s := List.take_of_length_le (by omega)
  have h2 : s.drop n.toNat = [] := List.drop_of_length_le (by omega)
  rw [h1, h2]

theorem safeRead_short (n : Int) (s : List Nat) (h : (s.length : Int) < n) :
    safeRead n s = .error .incompleteRead := by
  unfold safeRead
  rw [readFp_short n s h]
  rw [if_pos (show (((s, ([] : List Nat)).1.length : Int) < n) from h)]

theorem takeWhile_all {p : Nat → Bool} {l : List Nat} (h : ∀ b ∈ l, p b = true) :
    l.takeWhile p = l := by
  induction l with
  | nil => rfl
  | cons b tl ih =>
    rw [List.takeWhile_cons_of_pos (h b (List.mem_cons_self b tl))]
    rw [ih (fun x hx => h x (List.mem_cons_of_mem _ hx))]

theorem hexDigit_ne_ten {b : Nat} (h : (hexDigit b).isSome) : b ≠ 10 := by
  intro hb
  rw [hb] at h
  simp [hexDigit] at h

theorem hexDigit_ne_semi {b : Nat} (h : (hexDigit b).isSome) : b ≠ 59 := by
  intro hb
  rw [hb] at h
  simp [hexDigit] at h

theorem readNextChunkSize_digits (sz z : List Nat) (hsz : sz ≠ [])
    (hhex : ∀ b ∈ sz, (hexDigit b).isSome) (hlen : sz.length + 2 ≤ 65536) :
    readNextChunkSize ((sz ++ crlf) ++ z) =
      .ok ((hexVal sz : Int), sz ++ crlf, z) := by
  have h10 : 10 ∉ sz ++ [13] := by
    intro hmem
    rcases List.mem_append.mp hmem with h | h
    · exact hexDigit_ne_ten (hhex 10 h) rfl
    · simp at h
  have hflat : (sz ++ crlf) ++ z = (sz ++ [13]) ++ 10 :: z := by
    simp [crlf]
  have hline := readlineFp_append 65537 (sz ++ [13]) z h10 (by simp; omega)
  unfold readNextChunkSize
  rw [hflat]
  simp only [hline]
  have hlineIs : (sz ++ [13]) ++ [10] = sz ++ crlf := by simp [crlf]
  rw [hlineIs]
  rw [if_neg (by simp [crlf]; omega)]
  rw [takeWhile_all (by
    intro b hb
    rcases List.mem_append.mp hb with h | h
    · simp only [decide_eq_true_eq]
      exact hexDigit_ne_semi (hhex b h)
    · simp [crlf] at h
      simp only [decide_eq_true_eq]
      omega)]
  rw [pyIntHex_digits sz crlf hsz hhex (by decide)]

theorem serializeTrailers_length (ts : List (List Nat)) :
    ts.length ≤ (serializeTrailers ts).length := by
  induction ts with
  | nil => simp [serializeTrailers]
  | cons t ts' ih =>
    have hc : serializeTrailers (t :: ts') = (t ++ crlf) ++ serializeTrailers ts' := by
      simp [serializeTrailers]
    rw [hc, List.length_append, List.length_cons]
    have h2 : (t ++ crlf).length = t.length + 2 := by simp [crlf]
    omega

theorem readTrailer_serialized (ts : List (List Nat)) :
    ∀ (fuel : Nat) (rest : List Nat), ts.length ≤ fuel → (∀ t ∈ ts, trailerWf t) →
    readTrailer fuel (serializeTrailers ts ++ (crlf ++ rest)) =
      .ok (serializeTrailers ts ++ crlf, rest) := by
  induction ts with
  | nil =>
    intro fuel rest _ _
    have hline : readlineFp 65537 ([13] ++ 10 :: rest) = ([13] ++ [10], rest) :=
      readlineFp_append 65537 [13] rest (by simp) (by simp)
    rw [readTrailer.eq_def]
    simp only [serializeTrailers, List.map_nil, List.flatten_nil, List.nil_append]
    rw [show crlf ++ rest = [13] ++ 10 :: rest from by simp [crlf]]
    simp only [hline]
    simp [crlf]
  | cons t ts' ih =>
    intro fuel rest hfuel hwf
    obtain ⟨fuel', rfl⟩ : ∃ k, fuel = k + 1 := by
      cases fuel with
      | zero => simp at hfuel
      | succ k => exact ⟨k, rfl⟩
    have htwf := hwf t (List.mem_cons_self t ts')
    have h10 : 10 ∉ t ++ [13] := by
      intro hmem
      rcases List.mem_append.mp hmem with h | h
      · exact htwf.2.1 h
      · simp at h
    have hstream : serializeTrailers (t :: ts') ++ (crlf ++ rest) =
        (t ++ [13]) ++ 10 :: (serializeTrailers ts' ++ (crlf ++ rest)) := by
      simp only [serializeTrailers, List.map_cons, List.flatten_cons]
      simp [crlf]
    have hline := readlineFp_append 65537 (t ++ [13])
      (serializeTrailers ts' ++ (crlf ++ rest)) h10 (by
        have := htwf.2.2
        simp
        omega)
    rw [readTrailer.eq_def, hstream]
    simp only [hline]
    have hlineIs : (t ++ [13]) ++ [10] = t ++ crlf := by simp [crlf]
    rw [hlineIs]
    have hlen3 : (t ++ crlf).length ≥ 3 := by
      have : t.length ≥ 1 := by
        cases ht : t with
        | nil => exact absurd ht htwf.1
        | cons a b => simp [ht]
      simp [crlf]
      omega
    rw [if_neg (by
      have := htwf.2.2
      simp [crlf]
      omega)]
    rw [if_neg (by
      intro h
      rw [h] at hlen3
      simp at hlen3)]
    rw [if_neg (by
      intro hor
      rcases hor with h | h <;> (rw [h] at hlen3; simp at hlen3))]
    rw [ih fuel' rest (by simpa using Nat.le_of_succ_le_succ hfuel)
      (fun u hu => hwf u (List.mem_cons_of_mem _ hu))]
    simp only [serializeTrailers, List.map_cons, List.flatten_cons]
    simp

theorem safeRead_crlf (X : List Nat) : safeRead 2 (crlf ++ X) = .ok (crlf, X) := by
  have h := safeRead_append crlf X
  exact h

theorem chunkedBody_cons (sz data : List Nat) (cs : List (List Nat × List Nat))
    (ts : List (List Nat)) :
    chunkedBody ((sz, data) :: cs) ts =
      (sz ++ crlf) ++ (data ++ (crlf ++ chunkedBody cs ts)) := by
  simp [chunkedBody, serializeChunks, serializeChunk]

theorem chunkedBody_nil (ts : List (List Nat)) :
    chunkedBody [] ts = ([48] ++ crlf) ++ (serializeTrailers ts ++ (crlf ++ [])) := by
  simp [chunkedBody, serializeChunks]

theorem readAllChunked_serialized (cs : List (List Nat × List Nat)) :
    ∀ (ts : List (List Nat)) (extra : List Nat) (fuel : Nat),
    cs.length + 1 ≤ fuel →
    (∀ c ∈ cs, chunkWf c) → (∀ t ∈ ts, trailerWf t) →
    readAllChunkedAux fuel none (chunkedBody cs ts ++ extra) =
      .ok (chunkedBody cs ts, extra) ∧
    readAllChunkedAux fuel (some 0) (crlf ++ (chunkedBody cs ts ++ extra)) =
      .ok (crlf ++ chunkedBody cs ts, extra) := by
  induction cs with
  | nil =>
    intro ts extra fuel hfuel _ hts
    obtain ⟨fuel', rfl⟩ : ∃ k, fuel = k + 1 := by
      cases fuel with
      | zero => omega
      | succ k => exact ⟨k, rfl⟩
    have hz : chunkedBody [] ts ++ extra =
        ([48] ++ crlf) ++ (serializeTrailers ts ++ (crlf ++ extra)) := by
      rw [chunkedBody]
      simp [serializeChunks]
    have hsize := readNextChunkSize_digits [48]
      (serializeTrailers ts ++ (crlf ++ extra)) (by simp) (by decide) (by simp)
    have hhex0 : hexVal [48] = 0 := by decide
    rw [hhex0] at hsize
    have htr := readTrailer_serialized ts
      ((serializeTrailers ts ++ (crlf ++ extra)).length + 1) extra
      (by
        have := serializeTrailers_length ts
        simp only [List.length_append]
        omega) hts
    constructor
    · rw [hz, readAllChunkedAux.eq_def]
      simp only [hsize, htr]
      rw [chunkedBody]
      simp [serializeChunks]
    · rw [hz, readAllChunkedAux.eq_def]
      simp only [safeRead_crlf, hsize, htr]
      rw [chunkedBody]
      simp [serializeChunks]
  | cons c cs' ih =>
    intro ts extra fuel hfuel hcs hts
    obtain ⟨sz, data⟩ := c
    obtain ⟨fuel', rfl⟩ : ∃ k, fuel = k + 1 := by
      cases fuel with
      | zero => omega
      | succ k => exact ⟨k, rfl⟩
    have hcw := hcs (sz, data) (List.mem_cons_self _ _)
    obtain ⟨hszne0, hszhex0, hszlen0, hszval0, hdne0⟩ := hcw
    have hszne : sz ≠ [] := hszne0
    have hszhex : ∀ b ∈ sz, (hexDigit b).isSome := hszhex0
    have hszlen : sz.length + 2 ≤ 65536 := hszlen0
    have hszval : hexVal sz = data.length := hszval0
    have hdne : data ≠ [] := hdne0
    have hz : chunkedBody ((sz, data) :: cs') ts ++ extra =
        (sz ++ crlf) ++ (data ++ (crlf ++ (chunkedBody cs' ts ++ extra))) := by
      rw [chunkedBody_cons]
      simp
    have hsize := readNextChunkSize_digits sz
      (data ++ (crlf ++ (chunkedBody cs' ts ++ extra))) hszne hszhex hszlen
    rw [hszval] at hsize
    have hne0 : ¬ ((data.length : Int) = 0) := by
      have : data.length ≥ 1 := by
        cases hdd : data with
        | nil => exact absurd hdd hdne
        | cons a b => simp [hdd]
      omega
    have hread := safeRead_append data (crlf ++ (chunkedBody cs' ts ++ extra))
    have hih := (ih ts extra fuel' (by simpa using Nat.le_of_succ_le_succ hfuel)
      (fun x hx => hcs x (List.mem_cons_of_mem _ hx)) hts).2
    constructor
    · rw [hz, readAllChunkedAux.eq_def]
      simp only [hsize, if_neg hne0]
      rw [hread]
      simp only [hih]
      rw [chunkedBody_cons]
      simp
    · rw [hz, readAllChunkedAux.eq_def]
      simp only [safeRead_crlf, hsize, if_neg hne0, if_true]
      rw [hread]
      simp only [hih]
      rw [chunkedBody_cons]
      simp

theorem serializeChunks_length (cs : List (List Nat × List Nat)) :
    cs.length ≤ (serializeChunks cs).length := by
  induction cs with
  | nil => simp [serializeChunks]
  | cons c cs' ih =>
    have hc : serializeChunks (c :: cs') = serializeChunk c ++ serializeChunks cs' := by
      simp [serializeChunks]
    rw [hc, List.length_append, List.length_cons]
    have h2 : (serializeChunk c).length = c.1.length + c.2.length + 4 := by
      simp [serializeChunk, crlf]
      omega
    omega

theorem respRead_chunked (info : RespInfo) (cs : List (List Nat × List Nat))
    (ts : List (List Nat)) (extra : List Nat) (hch : info.chunked = true)
    (hcs : ∀ c ∈ cs, chunkWf c) (hts : ∀ t ∈ ts, trailerWf t) :
    respRead info (chunkedBody cs ts ++ extra) = .ok (chunkedBody cs ts, extra) := by
  unfold respRead
  rw [hch, if_pos rfl]
  have hfuel : cs.length + 1 ≤ (chunkedBody cs ts ++ extra).length + 1 := by
    have h1 := serializeChunks_length cs
    have h2 : (serializeChunks cs).length ≤ (chunkedBody cs ts).length := by
      rw [chunkedBody]
      simp
    simp only [List.length_append]
    omega
  exact (readAllChunked_serialized cs ts extra _ hfuel hcs hts).1

theorem respRead_length (info : RespInfo) (body extra : List Nat)
    (hch : info.chunked = false) (hlen : info.rlength = some (body.length : Int)) :
    respRead info (body ++ extra) = .ok (body, extra) := by
  unfold respRead
  rw [hch]
  rw [if_neg (by simp)]
  rw [hlen]
  have hsr := safeRead_append body extra
  simp only [hsr]

theorem respRead_none (info : RespInfo) (s : List Nat)
    (hch : info.chunked = false) (hlen : info.rlength = none) :
    respRead info s = .ok (s, []) := by
  unfold respRead
  rw [hch]
  rw [if_neg (by simp)]
  rw [hlen]

theorem respRead_short (info : RespInfo) (s : List Nat) (n : Int)
    (hch : info.chunked = false) (hlen : info.rlength = some n)
    (h : (s.length : Int) < n) :
    respRead info s = .error .incompleteRead := by
  unfold respRead
  rw [hch]
  rw [if_neg (by simp)]
  rw [hlen]
  have hsr := safeRead_short n s h
  simp only [hsr]

/-! ### The framer on a whole well-formed message -/

theorem computeInfo_chunked (st : Int) (pairs : List (List Nat × List Nat)) :
    (computeInfo st pairs).chunked = teChunked pairs := rfl

theorem computeInfo_rlength (st : Int) (pairs : List (List Nat × List Nat)) :
    (computeInfo st pairs).rlength =
      if forcedZero st then some 0 else clLength (teChunked pairs) pairs := rfl

theorem HttpMsg.code_ne_100 (m : HttpMsg) (hwf : m.wf) :
    decVal m.head.statusDigits ≠ 100 := by
  obtain ⟨hh, hb⟩ := hwf
  cases hmb : m.mbody with
  | byLength body =>
    rw [hmb] at hb
    intro hc
    have : forcedZero m.head.code = true := by
      unfold forcedZero HttpHead.code
      rw [hc]
      decide
    rw [hb.2.2] at this
    exact absurd this (by simp)
  | byChunks cs ts =>
    rw [hmb] at hb
    intro hc
    apply hb.2.1
    unfold HttpHead.code
    rw [hc]
    rfl

theorem read_http_res_msg (m : HttpMsg) (extra : List Nat) (hwf : m.wf) :
    read_http_res (m.serialize ++ extra) = .ok (m.serialize, extra) := by
  have hassoc : m.serialize ++ extra = m.head.serialize ++ (m.mbody.serialize ++ extra) := by
    rw [HttpMsg.serialize]
    simp
  have hbegin := begin_serialized m.head (m.mbody.serialize ++ extra) hwf.1
    (m.code_ne_100 hwf)
  unfold read_http_res
  rw [hassoc, hbegin]
  obtain ⟨hh, hb⟩ := hwf
  cases hmb : m.mbody with
  | byLength body =>
    rw [hmb] at hb
    obtain ⟨hte, hcl, hfz⟩ := hb
    have hrl : (computeInfo m.head.code m.head.pairs).rlength = some (body.length : Int) := by
      rw [computeInfo_rlength, hfz, hte]
      simp [hcl]
    have hrr := respRead_length (computeInfo m.head.code m.head.pairs) body extra
      (by rw [computeInfo_chunked, hte]) hrl
    simp only [MsgBody.serialize]
    simp only [hrr]
    rw [HttpMsg.serialize, hmb]
    simp [MsgBody.serialize]
  | byChunks cs ts =>
    rw [hmb] at hb
    obtain ⟨hte, -, hcs, hts⟩ := hb
    have hrr := respRead_chunked (computeInfo m.head.code m.head.pairs) cs ts extra
      (by rw [computeInfo_chunked, hte]) hcs hts
    simp only [MsgBody.serialize]
    simp only [hrr]
    rw [HttpMsg.serialize, hmb]
    simp [MsgBody.serialize]

theorem clLength_of_get_none (ch : Bool) (pairs : List (List Nat × List Nat))
    (hcl : headersGet (latin1 ("content-length")) pairs = none) :
    clLength ch pairs = none := by
  unfold clLength
  rw [hcl]

theorem read_http_res_noframing (hd : HttpHead) (extra : List Nat) (hwf : hd.wf)
    (hcl : headersGet (latin1 ("content-length")) hd.pairs = none)
    (hte : teChunked hd.pairs = false)
    (hn100 : decVal hd.statusDigits ≠ 100) :
    (forcedZero hd.code = true →
      read_http_res (hd.serialize ++ extra) = .ok (hd.serialize, extra)) ∧
    (forcedZero hd.code = false →
      read_http_res (hd.serialize ++ extra) = .ok (hd.serialize ++ extra, [])) := by
  have hbegin := begin_serialized hd extra hwf hn100
  constructor
  · intro hfz
    unfold read_http_res
    rw [hbegin]
    have hrl : (computeInfo hd.code hd.pairs).rlength =
        some ((([] : List Nat)).length : Int) := by
      rw [computeInfo_rlength, hfz]
      simp
    have hrr := respRead_length (computeInfo hd.code hd.pairs) [] extra
      (by rw [computeInfo_chunked, hte]) hrl
    simp only [List.nil_append] at hrr
    simp only [hrr]
    simp
  · intro hfz
    unfold read_http_res
    rw [hbegin]
    have hrl : (computeInfo hd.code hd.pairs).rlength = none := by
      rw [computeInfo_rlength, hfz]
      simp only [Bool.false_eq_true, if_false]
      rw [hte]
      exact clLength_of_get_none false hd.pairs hcl
    have hrr := respRead_none (computeInfo hd.code hd.pairs) extra
      (by rw [computeInfo_chunked, hte]) hrl
    simp only [hrr]

theorem read_http_res_truncatedCL (hd : HttpHead) (body : List Nat) (n : Int)
    (hwf : hd.wf) (hte : teChunked hd.pairs = false)
    (hcl : clLength false hd.pairs = some n) (hfz : forcedZero hd.code = false)
    (hshort : (body.length : Int) < n) :
    read_http_res (hd.serialize ++ body) = .error .incompleteRead := by
  have hn100 : decVal hd.statusDigits ≠ 100 := by
    intro hc
    have : forcedZero hd.code = true := by
      unfold forcedZero HttpHead.code
      rw [hc]
      decide
    rw [hfz] at this
    exact absurd this (by simp)
  have hbegin := begin_serialized hd body hwf hn100
  unfold read_http_res
  rw [hbegin]
  have hrl : (computeInfo hd.code hd.pairs).rlength = some n := by
    rw [computeInfo_rlength, hfz]
    simp only [Bool.false_eq_true, if_false]
    rw [hte]
    exact hcl
  have hrr := respRead_short (computeInfo hd.code hd.pairs) body n
    (by rw [computeInfo_chunked, hte]) hrl hshort
  simp only [hrr]

theorem readAllChunked_badSizeLine (junk z : List Nat) (fuel : Nat)
    (h10 : 10 ∉ junk) (hjl : junk.length + 2 ≤ 65536)
    (hbad : pyIntHex ((junk ++ crlf).takeWhile (fun b => b ≠ 59)) = none) :
    readAllChunkedAux (fuel + 1) none ((junk ++ crlf) ++ z) = .error .incompleteRead := by
  have hflat : (junk ++ crlf) ++ z = (junk ++ [13]) ++ 10 :: z := by simp [crlf]
  have hline := readlineFp_append 65537 (junk ++ [13]) z
    (by
      intro hm
      rcases List.mem_append.mp hm with h | h
      · exact h10 h
      · simp at h)
    (by simp; omega)
  have hsize : readNextChunkSize ((junk ++ crlf) ++ z) = .error .incompleteRead := by
    unfold readNextChunkSize
    rw [hflat]
    simp only [hline]
    rw [show (junk ++ [13]) ++ [10] = junk ++ crlf from by simp [crlf]]
    rw [if_neg (by simp [crlf]; omega)]
    rw [hbad]
  rw [readAllChunkedAux.eq_def]
  simp only [hsize]

theorem readAllChunked_shortChunk (sz pb : List Nat) (fuel : Nat)
    (hsz : sz ≠ []) (hhex : ∀ b ∈ sz, (hexDigit b).isSome)
    (hlen : sz.length + 2 ≤ 65536)
    (hshort : (pb.length : Int) < (hexVal sz : Int)) :
    readAllChunkedAux (fuel + 1) none ((sz ++ crlf) ++ pb) = .error .incompleteRead := by
  have hsize := readNextChunkSize_digits sz pb hsz hhex hlen
  have hne0i : ¬ ((hexVal sz : Int) = 0) := by omega
  have hsr := safeRead_short (hexVal sz : Int) pb hshort
  rw [readAllChunkedAux.eq_def]
  simp only [hsize, if_neg hne0i, hsr]

theorem read_http_res_badChunkSize (hd : HttpHead) (junk z : List Nat)
    (hwf : hd.wf) (hte : teChunked hd.pairs = true)
    (hn100 : decVal hd.statusDigits ≠ 100)
    (h10 : 10 ∉ junk) (hjl : junk.length + 2 ≤ 65536)
    (hbad : pyIntHex ((junk ++ crlf).takeWhile (fun b => b ≠ 59)) = none) :
    read_http_res (hd.serialize ++ ((junk ++ crlf) ++ z)) = .error .incompleteRead := by
  have hbegin := begin_serialized hd ((junk ++ crlf) ++ z) hwf hn100
  unfold read_http_res
  rw [hbegin]
  have hrr : respRead (computeInfo hd.code hd.pairs) ((junk ++ crlf) ++ z) =
      .error .incompleteRead := by
    unfold respRead
    rw [computeInfo_chunked, hte, if_pos rfl]
    exact readAllChunked_badSizeLine junk z _ h10 hjl hbad
  simp only [hrr]

theorem read_http_res_shortChunk (hd : HttpHead) (sz pb : List Nat)
    (hwf : hd.wf) (hte : teChunked hd.pairs = true)
    (hn100 : decVal hd.statusDigits ≠ 100)
    (hsz : sz ≠ []) (hhex : ∀ b ∈ sz, (hexDigit b).isSome)
    (hlen : sz.length + 2 ≤ 65536)
    (hshort : (pb.length : Int) < (hexVal sz : Int)) :
    read_http_res (hd.serialize ++ ((sz ++ crlf) ++ pb)) = .error .incompleteRead := by
  have hbegin := begin_serialized hd ((sz ++ crlf) ++ pb) hwf hn100
  unfold read_http_res
  rw [hbegin]
  have hrr : respRead (computeInfo hd.code hd.pairs) ((sz ++ crlf) ++ pb) =
      .error .incompleteRead := by
    unfold respRead
    rw [computeInfo_chunked, hte, if_pos rfl]
    exact readAllChunked_shortChunk sz pb _ hsz hhex hlen hshort
  simp only [hrr]

/-! ### Claims about the HTTP framer -/

/-- C1 (amended): for every well-formed HTTP message — status line,
headers, blank line and a body framed by `Content-Length` or by chunked
transfer encoding, where the status code is not one whose body the
library forces to empty (100 in particular triggers the 100-continue
skip) — followed by arbitrary further bytes, `read_http_res` returns
exactly the raw bytes of the message as they appeared on the wire and
leaves every byte after the message unread. -/
theorem claim_C1 (m : HttpMsg) (extra : List Nat) (hwf : m.wf) :
    read_http_res (m.serialize ++ extra) = .ok (m.serialize, extra) :=
  read_http_res_msg m extra hwf

/-- C1 witness: the chunked example of the specification, followed by
further bytes, is returned verbatim with the further bytes unread. -/
theorem claim_C1_witness :
    read_http_res
        ((⟨⟨[49], [50, 48, 48], latin1 ("OK"),
            [⟨latin1 ("Transfer-Encoding"), latin1 ("chunked")⟩]⟩,
          .byChunks [(latin1 ("5"), latin1 ("hello"))] []⟩ : HttpMsg).serialize ++
          latin1 ("NEXT")) =
      .ok ((⟨⟨[49], [50, 48, 48], latin1 ("OK"),
            [⟨latin1 ("Transfer-Encoding"), latin1 ("chunked")⟩]⟩,
          .byChunks [(latin1 ("5"), latin1 ("hello"))] []⟩ : HttpMsg).serialize,
        latin1 ("NEXT")) :=
  claim_C1 _ (latin1 ("NEXT")) (by decide)

/-- C1 counterexample: a well-formed 100-Continue message with
`Content-Length: 0` followed by further bytes.  The claim as stated
requires the message bytes back with `GARBAGE` left unread; the code
instead skips the 100 response, tries to parse `GARBAGE` as the next
status line and raises `BadStatusLine`. -/
theorem claim_C1_counterexample :
    read_http_res (latin1 ("HTTP/1.1 100 Continue\r\nContent-Length: 0\r\n\r\n") ++
        latin1 ("GARBAGE")) = .error .badStatusLine ∧
    read_http_res (latin1 ("HTTP/1.1 100 Continue\r\nContent-Length: 0\r\n\r\n") ++
        latin1 ("GARBAGE")) ≠
      .ok (latin1 ("HTTP/1.1 100 Continue\r\nContent-Length: 0\r\n\r\n"),
        latin1 ("GARBAGE")) := by
  constructor
  · decide
  · decide

/-- C2 (amended): on a well-formed header block with no
`Content-Length` header and no chunked transfer encoding,
`read_http_res` stops at the header terminator only for the status
codes whose body length the library forces to zero (204, 304 and the
1xx range, excluding the skipped 100); for every other status it treats
the body as delimited by the end of the stream and consumes every
remaining byte. -/
theorem claim_C2 (hd : HttpHead) (extra : List Nat) (hwf : hd.wf)
    (hcl : headersGet (latin1 ("content-length")) hd.pairs = none)
    (hte : teChunked hd.pairs = false)
    (hn100 : decVal hd.statusDigits ≠ 100) :
    (forcedZero hd.code = true →
      read_http_res (hd.serialize ++ extra) = .ok (hd.serialize, extra)) ∧
    (forcedZero hd.code = false →
      read_http_res (hd.serialize ++ extra) = .ok (hd.serialize ++ extra, [])) :=
  read_http_res_noframing hd extra hwf hcl hte hn100

/-- C2 witness: a 200 response without framing headers consumes the
stream to its end. -/
theorem claim_C2_witness :
    read_http_res ((⟨[49], [50, 48, 48], latin1 ("OK"), []⟩ : HttpHead).serialize ++
        latin1 ("EXTRA")) =
      .ok ((⟨[49], [50, 48, 48], latin1 ("OK"), []⟩ : HttpHead).serialize ++
        latin1 ("EXTRA"), []) :=
  (claim_C2 ⟨[49], [50, 48, 48], latin1 ("OK"), []⟩ (latin1 ("EXTRA"))
    (by decide) (by decide) (by decide) (by decide)).2 (by decide)

/-- C2 counterexample: for `HTTP/1.1 200 OK` with neither
`Content-Length` nor chunked encoding, the claim requires reading to
stop at the blank line with `EXTRA` left unread; the code reads the
whole remainder of the stream. -/
theorem claim_C2_counterexample :
    read_http_res (latin1 ("HTTP/1.1 200 OK\r\n\r\n") ++ latin1 ("EXTRA")) =
      .ok (latin1 ("HTTP/1.1 200 OK\r\n\r\nEXTRA"), []) ∧
    read_http_res (latin1 ("HTTP/1.1 200 OK\r\n\r\n") ++ latin1 ("EXTRA")) ≠
      .ok (latin1 ("HTTP/1.1 200 OK\r\n\r\n"), latin1 ("EXTRA")) := by
  constructor
  · decide
  · decide

/-- C6: boundary-detection failures surface an error instead of a
silently truncated byte sequence: (1) a stream that closes before the
declared `Content-Length` is fully read, (2) a malformed (non-parsing)
chunk-size line, and (3) a stream that closes before the current chunk
is fully read, all make `read_http_res` raise `IncompleteRead`. -/
theorem claim_C6 :
    (∀ (hd : HttpHead) (body : List Nat) (n : Int), hd.wf →
      teChunked hd.pairs = false → clLength false hd.pairs = some n →
      forcedZero hd.code = false → (body.length : Int) < n →
      read_http_res (hd.serialize ++ body) = .error .incompleteRead) ∧
    (∀ (hd : HttpHead) (junk z : List Nat), hd.wf →
      teChunked hd.pairs = true → decVal hd.statusDigits ≠ 100 →
      10 ∉ junk → junk.length + 2 ≤ 65536 →
      pyIntHex ((junk ++ crlf).takeWhile (fun b => b ≠ 59)) = none →
      read_http_res (hd.serialize ++ ((junk ++ crlf) ++ z)) = .error .incompleteRead) ∧
    (∀ (hd : HttpHead) (sz pb : List Nat), hd.wf →
      teChunked hd.pairs = true → decVal hd.statusDigits ≠ 100 →
      sz ≠ [] → (∀ b ∈ sz, (hexDigit b).isSome) → sz.length + 2 ≤ 65536 →
      (pb.length : Int) < (hexVal sz : Int) →
      read_http_res (hd.serialize ++ ((sz ++ crlf) ++ pb)) = .error .incompleteRead) :=
  ⟨fun hd body n hwf hte hcl hfz hshort =>
      read_http_res_truncatedCL hd body n hwf hte hcl hfz hshort,
    fun hd junk z hwf hte hn100 h10 hjl hbad =>
      read_http_res_badChunkSize hd junk z hwf hte hn100 h10 hjl hbad,
    fun hd sz pb hwf hte hn100 hsz hhex hlen hshort =>
      read_http_res_shortChunk hd sz pb hwf hte hn100 hsz hhex hlen hshort⟩

/-- C6 witness: `Content-Length: 5` with only `hel` on the stream
raises `IncompleteRead`. -/
theorem claim_C6_witness :
    read_http_res ((⟨[49], [50, 48, 48], latin1 ("OK"),
        [⟨latin1 ("Content-Length"), latin1 ("5")⟩]⟩ : HttpHead).serialize ++
      latin1 ("hel")) = .error .incompleteRead :=
  claim_C6.1 ⟨[49], [50, 48, 48], latin1 ("OK"),
      [⟨latin1 ("Content-Length"), latin1 ("5")⟩]⟩ (latin1 ("hel")) 5
    (by decide) (by decide) (by decide) (by decide) (by decide)

/-! ### Lemmas about the drains and the multiplexer -/

theorem drainStream_ok_flags (o : Option PyFile) :
    (drainStream o).2 = none ∧
    (drainStream o).1.map PyFile.flags = o.map PyFile.flags := by
  cases o with
  | none => exact ⟨rfl, rfl⟩
  | some f =>
    simp only [drainStream]
    by_cases hc : f.closed = true
    · rw [if_pos hc]
      exact ⟨rfl, rfl⟩
    · rw [if_neg hc]
      cases hp : (drainReadLoop { f with flags := f.flags ||| O_NONBLOCK }).2 with
      | none => simp [hp]
      | some e => cases e <;> simp [hp, PyErr.isOSError, PyErr.isValueError]

theorem procDrain_ok (p : ProcProxy) : (ProcProxy.drain p).2 = none := by
  unfold ProcProxy.drain
  by_cases hc : p.closed = true
  · rw [if_pos hc]
  · rw [if_neg hc]
    have h1 := (drainStream_ok_flags p.stdout).1
    cases hq : (drainStream p.stdout).2 with
    | some e => rw [hq] at h1; exact absurd h1 (by simp)
    | none =>
      simp only [hq]
      exact (drainStream_ok_flags p.stderr).1

theorem sockDrain_ok (sp : SockProxy) : (SockProxy.drain sp).2 = none := by
  unfold SockProxy.drain
  by_cases hc : sp.obj.hasSettimeout = true
  · simp only [hc]
    rfl
  · simp only [Bool.not_eq_true] at hc
    simp only [hc]
    rfl

theorem sockDrain_timeout (sp : SockProxy) :
    (SockProxy.drain sp).1.obj.timeout = sp.obj.timeout := by
  unfold SockProxy.drain
  by_cases hc : sp.obj.hasSettimeout = true
  · simp only [hc]
    rfl
  · simp only [Bool.not_eq_true] at hc
    simp only [hc]
    rfl

theorem procDrain_flags (p : ProcProxy) :
    (ProcProxy.drain p).1.stdout.map PyFile.flags = p.stdout.map PyFile.flags ∧
    (ProcProxy.drain p).1.stderr.map PyFile.flags = p.stderr.map PyFile.flags := by
  unfold ProcProxy.drain
  by_cases hc : p.closed = true
  · rw [if_pos hc]
    exact ⟨rfl, rfl⟩
  · rw [if_neg hc]
    have h1 := drainStream_ok_flags p.stdout
    have h2 := drainStream_ok_flags p.stderr
    cases hq : (drainStream p.stdout).2 with
    | some e =>
      have := h1.1
      rw [hq] at this
      exact absurd this (by simp)
    | none =>
      simp only [hq]
      exact ⟨h1.2, h2.2⟩

theorem printLoop_emptyCycle (st : MuxState) (rest : List (List Handle)) :
    printLoop ([] :: rest) st = st := by
  simp only [printLoop]
  by_cases hc : st.active = []
  · rw [if_pos hc]
  · rw [if_neg hc]
    simp

theorem printLoop_inactive (sched : List (List Handle)) (st : MuxState)
    (h : st.active = []) : printLoop sched st = st := by
  cases sched with
  | nil => rfl
  | cons c rest =>
    simp only [printLoop]
    rw [if_pos h]

theorem removeH_registered_subset (m : MuxState) (h : Handle) :
    (m.removeH h).registered ⊆ m.registered := fun _ ha => List.mem_of_mem_erase ha

theorem writeSink_registered (m : MuxState) (h : Handle) (bs : List Nat) :
    (m.writeSink h bs).registered = m.registered := by
  cases h <;> rfl

theorem readH_registered (st : MuxState) (h : Handle) :
    (st.readH h).1.registered = st.registered := by
  unfold MuxState.readH
  cases h with
  | hout => cases st.out <;> rfl
  | herr => cases st.err <;> rfl

theorem processEvent_registered (st : MuxState) (h : Handle) :
    (processEvent st h).registered ⊆ st.registered := by
  unfold processEvent
  cases hr : (st.readH h).2 with
  | ok bs =>
    simp only [hr]
    by_cases hb : bs = []
    · rw [if_pos hb]
      intro a ha
      rw [← readH_registered st h]
      exact removeH_registered_subset _ _ ha
    · rw [if_neg hb]
      intro a ha
      rw [writeSink_registered] at ha
      rw [← readH_registered st h]
      exact ha
  | error e =>
    simp only [hr]
    intro a ha
    rw [← readH_registered st h]
    exact removeH_registered_subset _ _ ha

theorem processEvents_registered (evs : List Handle) :
    ∀ st : MuxState, (processEvents evs st).registered ⊆ st.registered := by
  induction evs with
  | nil => intro st; exact fun _ ha => ha
  | cons e evs' ih =>
    intro st
    have h1 : processEvents (e :: evs') st = processEvents evs' (processEvent st e) := rfl
    rw [h1]
    exact fun _ ha => processEvent_registered st e (ih (processEvent st e) ha)

theorem printLoop_registered (sched : List (List Handle)) :
    ∀ st : MuxState, (printLoop sched st).registered ⊆ st.registered := by
  induction sched with
  | nil => intro st; exact fun _ ha => ha
  | cons c rest ih =>
    intro st
    simp only [printLoop]
    by_cases hc : st.active = []
    · rw [if_pos hc]
      exact fun _ ha => ha
    · rw [if_neg hc]
      by_cases he : c.filter (fun h => st.registered.contains h) = []
      · rw [if_pos he]
        exact fun _ ha => ha
      · rw [if_neg he]
        intro a ha
        exact processEvents_registered _ _ (ih _ ha)

theorem printLoop_allEmpty (sched : List (List Handle)) (st : MuxState)
    (hs : ∀ c ∈ sched, c = []) : printLoop sched st = st := by
  cases sched with
  | nil => rfl
  | cons c rest =>
    have hc : c = [] := hs c (List.mem_cons_self c rest)
    rw [hc]
    exact printLoop_emptyCycle st rest

theorem map_reads_setNonblock (o : Option PyFile) :
    (o.map setNonblock).map PyFile.reads = o.map PyFile.reads := by
  cases o <;> rfl

theorem print_allEmpty (p : ProcProxy) (sO sE : List Nat)
    (sched : List (List Handle)) (hs : ∀ c ∈ sched, c = []) :
    ProcProxy.print p sO sE sched =
      (if p.closed then p else { p with stdout := p.stdout.map setNonblock, stderr := p.stderr.map setNonblock }, sO, sE) := by
  unfold ProcProxy.print
  by_cases hc : p.closed = true
  · rw [if_pos hc, if_pos hc]
  · rw [if_neg hc, if_neg hc]
    dsimp only
    rw [printLoop_allEmpty sched _ hs]

/-! ### Claims about drain, print, write, read and close -/

/-- C3 (amended): the two drain operations restore the stream's previous
mode on every exit path — the fcntl flags of the process pipes and the
socket timeout come back to their prior values whether the reads
succeed, hit would-block, or fail on a closed stream.  The multiplexer
`print`, by contrast, sets `O_NONBLOCK` and never restores it (see the
counterexample). -/
theorem claim_C3 :
    (∀ o : Option PyFile, (drainStream o).1.map PyFile.flags = o.map PyFile.flags) ∧
    (∀ p : ProcProxy,
      (ProcProxy.drain p).1.stdout.map PyFile.flags = p.stdout.map PyFile.flags ∧
      (ProcProxy.drain p).1.stderr.map PyFile.flags = p.stderr.map PyFile.flags) ∧
    (∀ sp : SockProxy, (SockProxy.drain sp).1.obj.timeout = sp.obj.timeout) :=
  ⟨fun o => (drainStream_ok_flags o).2, procDrain_flags, sockDrain_timeout⟩

/-- C3 counterexample: `print` on an open proxy whose stdout has clear
flags returns with `O_NONBLOCK` (bit 2048) still set on stdout — the
prior mode is not restored on the normal exit path. -/
theorem claim_C3_counterexample :
    ((ProcProxy.print ⟨none, some ⟨false, 0, false, none, [], [], []⟩, none,
        true, true, false⟩ [] [] []).1.stdout.map PyFile.flags) = some 2048 ∧
    ((⟨none, some ⟨false, 0, false, none, [], [], []⟩, none,
        true, true, false⟩ : ProcProxy).stdout.map PyFile.flags) = some 0 := by
  constructor
  · decide
  · decide

/-- C4 (amended): on a closed `ProcessProxy` every core operation fails
gracefully — `read` and `readline` return empty bytes, `write` returns
0, `drain` and `print` return without doing anything, and none of them
raises.  On a closed `FlushProxy`, `drain` still absorbs all errors,
but `read`, `readline` and `write` delegate to the closed underlying
file and raise `ValueError` (see the counterexample). -/
theorem claim_C4 :
    (∀ p : ProcProxy, p.closed = true →
      ProcProxy.read p = (p, .ok []) ∧
      ProcProxy.readline p = (p, .ok []) ∧
      (∀ d : PyData, ProcProxy.write p d = (p, .ok 0)) ∧
      ProcProxy.drain p = (p, none) ∧
      (∀ (sO sE : List Nat) (sched : List (List Handle)),
        ProcProxy.print p sO sE sched = (p, sO, sE))) ∧
    (∀ sp : SockProxy, (SockProxy.drain sp).2 = none) ∧
    (∀ sp : SockProxy, sp.obj.closed = true →
      (SockProxy.read sp).2 = .error .valueError ∧
      (SockProxy.readline sp).2 = .error .valueError ∧
      (∀ (d : PyData) (bs : List Nat), pyToNats d = some bs →
        (SockProxy.write sp d).2 = .error .valueError)) := by
  refine ⟨?_, sockDrain_ok, ?_⟩
  · intro p hc
    refine ⟨?_, ?_, ?_, ?_, ?_⟩
    · unfold ProcProxy.read
      rw [if_pos (by simp [hc])]
    · unfold ProcProxy.readline
      rw [if_pos (by simp [hc])]
    · intro d
      unfold ProcProxy.write
      rw [if_pos (by simp [hc])]
    · unfold ProcProxy.drain
      rw [if_pos hc]
    · intro sO sE sched
      unfold ProcProxy.print
      rw [if_pos hc]
  · intro sp hoc
    refine ⟨?_, ?_, ?_⟩
    · unfold SockProxy.read PyFile.read4096
      rw [if_pos hoc]
    · unfold SockProxy.readline PyFile.readlineOp PyFile.read4096
      rw [if_pos hoc]
    · intro d bs hpd
      unfold SockProxy.write
      rw [hpd]
      simp [PyFile.writeOp, hoc]

/-- C4 witness: a closed `ProcessProxy` reads empty bytes and writes 0;
drain on a closed `FlushProxy` escapes no exception. -/
theorem claim_C4_witness :
    ProcProxy.read ⟨none, none, none, false, true, true⟩ =
      (⟨none, none, none, false, true, true⟩, .ok []) ∧
    (∀ d : PyData, ProcProxy.write ⟨none, none, none, false, true, true⟩ d =
      (⟨none, none, none, false, true, true⟩, .ok 0)) :=
  ⟨(claim_C4.1 ⟨none, none, none, false, true, true⟩ (by decide)).1,
    (claim_C4.1 ⟨none, none, none, false, true, true⟩ (by decide)).2.2.1⟩

/-- C4 counterexample: reading or writing a closed `FlushProxy` raises
`ValueError` — the claim that no core operation on a closed handle
raises does not hold for the socket-backed wrapper. -/
theorem claim_C4_counterexample :
    (SockProxy.read ⟨⟨true, 0, false, none, [], [], []⟩, true, true⟩).2 =
      .error .valueError ∧
    (SockProxy.write ⟨⟨true, 0, false, none, [], [], []⟩, true, true⟩
      (.bytes [104, 105])).2 = .error .valueError := by
  constructor
  · decide
  · decide

/-- C5: when a wait cycle reports no ready stream the multiplexer stops
immediately — the rest of the schedule is never consulted — and when no
stream ever becomes ready `print` writes nothing to either sink and
performs no reads. -/
theorem claim_C5 :
    (∀ (st : MuxState) (rest : List (List Handle)), printLoop ([] :: rest) st = st) ∧
    (∀ (p : ProcProxy) (sO sE : List Nat) (sched : List (List Handle)),
      (∀ c ∈ sched, c = []) →
      (ProcProxy.print p sO sE sched).2.1 = sO ∧
      (ProcProxy.print p sO sE sched).2.2 = sE ∧
      (ProcProxy.print p sO sE sched).1.stdout.map PyFile.reads =
        p.stdout.map PyFile.reads ∧
      (ProcProxy.print p sO sE sched).1.stderr.map PyFile.reads =
        p.stderr.map PyFile.reads) := by
  constructor
  · exact printLoop_emptyCycle
  · intro p sO sE sched hs
    rw [print_allEmpty p sO sE sched hs]
    by_cases hc : p.closed = true
    · rw [if_pos hc]
      exact ⟨rfl, rfl, rfl, rfl⟩
    · rw [if_neg hc]
      exact ⟨rfl, rfl, map_reads_setNonblock _, map_reads_setNonblock _⟩

/-- C5 witness: a one-cycle schedule with no ready handle leaves the
sinks and the read scripts of a concrete proxy untouched. -/
theorem claim_C5_witness :
    (ProcProxy.print ⟨none, some ⟨false, 0, false, none, [.bytes [104]], [], []⟩,
        none, true, true, false⟩ [] [] [[]]).2.1 = [] ∧
    (ProcProxy.print ⟨none, some ⟨false, 0, false, none, [.bytes [104]], [], []⟩,
        none, true, true, false⟩ [] [] [[]]).2.2 = [] ∧
    (ProcProxy.print ⟨none, some ⟨false, 0, false, none, [.bytes [104]], [], []⟩,
        none, true, true, false⟩ [] [] [[]]).1.stdout.map PyFile.reads =
      (⟨none, some ⟨false, 0, false, none, [.bytes [104]], [], []⟩,
        none, true, true, false⟩ : ProcProxy).stdout.map PyFile.reads ∧
    (ProcProxy.print ⟨none, some ⟨false, 0, false, none, [.bytes [104]], [], []⟩,
        none, true, true, false⟩ [] [] [[]]).1.stderr.map PyFile.reads =
      (⟨none, some ⟨false, 0, false, none, [.bytes [104]], [], []⟩,
        none, true, true, false⟩ : ProcProxy).stderr.map PyFile.reads :=
  claim_C5.2 ⟨none, some ⟨false, 0, false, none, [.bytes [104]], [], []⟩,
    none, true, true, false⟩ [] [] [[]] (by decide)

/-- C7: a read error or an empty read removes exactly that handle from
the wait-set (never to be re-registered, since the registered set only
shrinks) and the loop goes on with the remaining schedule; an empty
wait-set stops the loop with the state returned as is. -/
theorem claim_C7 :
    (∀ (sched : List (List Handle)) (st : MuxState),
      (printLoop sched st).registered ⊆ st.registered) ∧
    (∀ (sched : List (List Handle)) (st : MuxState), st.active = [] →
      printLoop sched st = st) ∧
    (∀ (st : MuxState) (h : Handle) (rest : List (List Handle)),
      st.active ≠ [] → st.registered.contains h = true → st.registered.Nodup →
      ((∃ e, (st.readH h).2 = .error e) ∨ (st.readH h).2 = .ok []) →
      printLoop ([h] :: rest) st = printLoop rest (((st.readH h).1).removeH h) ∧
      h ∉ (((st.readH h).1).removeH h).registered) := by
  refine ⟨fun sched st => printLoop_registered sched st,
    fun sched st h => printLoop_inactive sched st h, ?_⟩
  intro st h rest hact hreg hnodup hfail
  have hpe : processEvent st h = ((st.readH h).1).removeH h := by
    unfold processEvent
    rcases hfail with ⟨e, he⟩ | he
    · simp only [he]
    · simp only [he, if_true]
  constructor
  · simp only [printLoop]
    rw [if_neg hact]
    have hmem : h ∈ st.registered := by
      simpa using hreg
    have hevs : [h].filter (fun x => st.registered.contains x) = [h] := by
      simp [List.filter, hmem]
    rw [hevs]
    rw [if_neg (by simp)]
    have h1 : processEvents [h] st = processEvent st h := rfl
    rw [h1, hpe]
  · show h ∉ ((st.readH h).1.registered).erase h
    rw [readH_registered st h]
    intro hmem
    exact ((List.Nodup.mem_erase_iff hnodup).mp hmem).1 rfl

/-- C7 witness: a handle whose read raises is removed from the wait-set
of a concrete multiplexer state and the loop continues. -/
theorem claim_C7_witness :
    printLoop [[Handle.hout]]
        ⟨[Handle.hout], [Handle.hout],
          some ⟨false, 0, false, none, [.err .osError], [], []⟩, none, [], []⟩ =
      printLoop []
        (((⟨[Handle.hout], [Handle.hout],
          some ⟨false, 0, false, none, [.err .osError], [], []⟩, none, [], []⟩ :
            MuxState).readH Handle.hout).1.removeH Handle.hout) ∧
    Handle.hout ∉ (((⟨[Handle.hout], [Handle.hout],
        some ⟨false, 0, false, none, [.err .osError], [], []⟩, none, [], []⟩ :
          MuxState).readH Handle.hout).1.removeH Handle.hout).registered :=
  claim_C7.2.2 ⟨[Handle.hout], [Handle.hout],
      some ⟨false, 0, false, none, [.err .osError], [], []⟩, none, [], []⟩
    Handle.hout [] (by decide) (by decide) (by decide)
    (Or.inl ⟨PyErr.osError, by decide⟩)

/-- C8: the drain operations never raise into the caller — every
exception class their reads can produce is absorbed by a handler — and
a closed stream or a closed proxy is treated as nothing to drain. -/
theorem claim_C8 :
    (∀ p : ProcProxy, (ProcProxy.drain p).2 = none) ∧
    (∀ sp : SockProxy, (SockProxy.drain sp).2 = none) ∧
    (∀ f : PyFile, f.closed = true → drainStream (some f) = (some f, none)) ∧
    (∀ p : ProcProxy, p.closed = true → ProcProxy.drain p = (p, none)) := by
  refine ⟨procDrain_ok, sockDrain_ok, ?_, ?_⟩
  · intro f hc
    simp only [drainStream]
    rw [if_pos hc]
  · intro p hc
    unfold ProcProxy.drain
    rw [if_pos hc]

/-- C8 witness: draining an already-closed stream and an already-closed
proxy returns them unchanged, with no escaping exception. -/
theorem claim_C8_witness :
    drainStream (some ⟨true, 0, false, none, [], [], []⟩) =
      (some ⟨true, 0, false, none, [], [], []⟩, none) ∧
    ProcProxy.drain ⟨none, none, none, false, true, true⟩ =
      (⟨none, none, none, false, true, true⟩, none) :=
  ⟨claim_C8.2.2.1 ⟨true, 0, false, none, [], [], []⟩ (by decide),
    claim_C8.2.2.2 ⟨none, none, none, false, true, true⟩ (by decide)⟩

/-- C9: both `write` methods convert a `str` argument with the latin-1
codec and copy a `bytearray` to `bytes`; an accepted write appends the
bytes to the underlying stream, flushes it, and returns the byte count
reported by the underlying write. -/
theorem claim_C9 :
    (∀ cs : List Nat, pyToNats (.str cs) = encodeLatin1 cs) ∧
    (∀ bs : List Nat, pyToNats (.bytearray bs) = some bs) ∧
    (∀ (sp : SockProxy) (d : PyData) (bs : List Nat),
      pyToNats d = some bs → sp.obj.closed = false →
      SockProxy.write sp d =
        ({ sp with obj := { sp.obj with pending := [], flushed := sp.obj.flushed ++ (sp.obj.pending ++ bs) } }, .ok bs.length)) ∧
    (∀ (p : ProcProxy) (f : PyFile) (d : PyData) (bs : List Nat),
      pyToNats d = some bs → p.closed = false → p.stdin = some f →
      f.closed = false →
      ProcProxy.write p d =
        ({ p with stdin := some { f with pending := [], flushed := f.flushed ++ (f.pending ++ bs) } }, .ok bs.length)) := by
  refine ⟨fun cs => rfl, fun bs => rfl, ?_, ?_⟩
  · intro sp d bs hpd hoc
    unfold SockProxy.write
    rw [hpd]
    simp [PyFile.writeOp, PyFile.flushOp, hoc]
  · intro p f d bs hpd hc hstdin hfc
    unfold ProcProxy.write
    rw [hstdin, hpd]
    simp [PyFile.writeOp, PyFile.flushOp, hc, hfc]

/-- C9 witness: writing the string `hi` to an open `FlushProxy` encodes
it with latin-1, flushes it through, and returns 2. -/
theorem claim_C9_witness :
    SockProxy.write ⟨⟨false, 0, false, none, [], [], []⟩, true, false⟩
        (.str (latin1 ("hi"))) =
      (⟨⟨false, 0, false, none, [], [], latin1 ("hi")⟩, true, false⟩, .ok 2) :=
  claim_C9.2.2.1 ⟨⟨false, 0, false, none, [], [], []⟩, true, false⟩
    (.str (latin1 ("hi"))) (latin1 ("hi")) (by decide) (by decide)

/-- C10: `close` is idempotent on both wrappers — the first call sets
the closed flag, so a second call returns at once and changes nothing. -/
theorem claim_C10 :
    (∀ p : ProcProxy, ProcProxy.close (ProcProxy.close p) = ProcProxy.close p) ∧
    (∀ sp : SockProxy, SockProxy.close (SockProxy.close sp) = SockProxy.close sp) := by
  constructor
  · intro p
    have h : (ProcProxy.close p).closed = true := by
      unfold ProcProxy.close
      by_cases hc : p.closed = true
      · rw [if_pos hc]
        exact hc
      · rw [if_neg hc]
    conv_lhs => rw [ProcProxy.close.eq_def]
    rw [if_pos h]
  · intro sp
    have h : (SockProxy.close sp).closed = true := by
      unfold SockProxy.close
      by_cases hc : sp.closed = true
      · rw [if_pos hc]
        exact hc
      · rw [if_neg hc]
    conv_lhs => rw [SockProxy.close.eq_def]
    rw [if_pos h]

end Nolpy
